import Mathlib

/-!
# products-services: the path classifier, the payments service and the HTTP handler

A shallow embedding of `api/api.go` and `payment/payment.go`.

Conventions of the embedding.

* A Go `string` is a `List Char` (`Str`).  Every separator, digit and sign the program
  looks at is an ASCII byte, so on valid UTF-8 text the byte-wise Go functions and the
  character-wise definitions below agree.
* A Go slice is an `Option (List α)`: `none` is the `nil` slice, `some []` the empty,
  non-nil slice that `make([]T, 0)` returns.
* A Go `error` result is an `Option` of an error value: `none` is `nil`.
* Go `int` is the 64-bit signed integer of the platforms the service is built for; it is
  an `Int` here, and `strconv.Atoi` carries the range check explicitly.
* A run-time panic (index out of range) is the constructor `Exec.panics`.
* The operating system is an explicit parameter: a `FileSystem` gives the answer of
  `os.ReadDir` and `ioutil.ReadFile` for every path.
* A request is its `URL.Path`; the response is the state of the `http.ResponseWriter` at the
  return of the handler, with the headers that `WriteHeader` has fixed.  `encoding/json` is
  a parameter as well: a `JsonEncoder` gives the answer of `json.Marshal`.
-/

namespace ProductServices

/-- Go strings, as character lists. -/
abbrev Str := List Char

/-- Go slices: `none` is `nil`. -/
abbrev Slice (α : Type) := Option (List α)

/-- Go `len` on a slice. -/
def sliceLen {α : Type} : Slice α → Nat
  | none => 0
  | some l => l.length

/-- Go `append(s, x)` with one element. -/
def sliceAppend {α : Type} : Slice α → α → Slice α
  | none, x => some [x]
  | some l, x => some (l ++ [x])

/-- The outcome of running a Go function body: it returns, or the run-time system panics. -/
inductive Exec (α : Type) where
  | returns : α → Exec α
  | panics : Exec α
  deriving DecidableEq, Repr

/-! ## package strings -/

/-- The path separator of the URL and of the host file system. -/
def slash : Char := '/'

/-- Go `strings.Count(s, sep)` for a one-byte separator. -/
def stringsCount (sep : Char) : Str → Nat
  | [] => 0
  | c :: cs => if c = sep then stringsCount sep cs + 1 else stringsCount sep cs

/-- Go `strings.Index(s, sep)` for a one-byte separator, given as the two slices
`s[:m]` and `s[m+len(sep):]` that `genSplit` takes around the match; `none` is `m < 0`. -/
def stringsCut (sep : Char) : Str → Option (Str × Str)
  | [] => none
  | c :: cs =>
    if c = sep then some ([], cs)
    else match stringsCut sep cs with
      | none => none
      | some (a, b) => some (c :: a, b)

/-- The loop of `strings.genSplit`: at most `k` cuts, then the remainder. -/
def genSplit (sep : Char) : Nat → Str → List Str
  | 0, s => [s]
  | k + 1, s =>
    match stringsCut sep s with
    | none => [s]
    | some (a, rest) => a :: genSplit sep k rest

/-- Go `strings.Split(s, sep)` for a one-byte separator: `n = Count(s, sep) + 1` pieces. -/
def stringsSplit (s : Str) (sep : Char) : List Str :=
  genSplit sep (stringsCount sep s) s

/-- Go `strings.Join(elems, sep)`. -/
def stringsJoin : List Str → Str → Str
  | [], _ => []
  | [a], _ => a
  | a :: b :: rest, sep => a ++ sep ++ stringsJoin (b :: rest) sep

/-! ## package api: the path classifier -/

/-- The four routes of `api.go`. -/
inductive PathType where
  | PATH_ROOT
  | PATH_DIR
  | PATH_PAYMENT
  | PATH_ERROR
  deriving DecidableEq, Repr

/-- The `for ... range strings.Split(path, "/")` loop of `parsePath`: empty pieces are skipped,
the others are appended to `params`. -/
def parsePathLoop : List Str → Slice Str → Slice Str
  | [], params => params
  | s :: rest, params =>
    if s = [] then parsePathLoop rest params
    else parsePathLoop rest (sliceAppend params s)

/-- Go `Handler.parsePath`. -/
def parsePath (path : Str) : PathType × Slice Str :=
  let params := parsePathLoop (stringsSplit path slash) none
  match sliceLen params with
  | 0 => (PathType.PATH_ROOT, none)
  | 1 => (PathType.PATH_DIR, params)
  | 2 => (PathType.PATH_PAYMENT, params)
  | _ => (PathType.PATH_ERROR, none)

/-- The non-empty pieces of a path, in the words of the specification: split on the
separator, discard every empty segment. -/
def pathSegments (p : Str) : List Str :=
  (List.splitOn slash p).filter (fun s => decide (s ≠ []))

/-- The classification by the count of non-empty segments, in the words of the specification. -/
def classifySegments : List Str → PathType × Slice Str
  | [] => (PathType.PATH_ROOT, none)
  | [a] => (PathType.PATH_DIR, some [a])
  | [a, b] => (PathType.PATH_PAYMENT, some [a, b])
  | _ :: _ :: _ :: _ => (PathType.PATH_ERROR, none)

/-! ## package strconv -/

/-- The test `'0' <= c && c <= '9'` on one byte. -/
def isDigitChar (c : Char) : Bool := decide (48 ≤ c.toNat) && decide (c.toNat ≤ 57)

/-- The value `c - '0'` of a digit. -/
def digitVal (c : Char) : Nat := c.toNat - 48

/-- The errors of `strconv`: `ErrSyntax` and `ErrRange`. -/
inductive NumError where
  | invalidDigits
  | outOfRange
  deriving DecidableEq, Repr

/-- The loop of the fast path of `strconv.Atoi`: `n = n*10 + int(ch)`, a byte that is not a
digit is an error. -/
def atoiFastLoop : Str → Nat → Except NumError Nat
  | [], n => Except.ok n
  | ch :: rest, n =>
    if isDigitChar ch then atoiFastLoop rest (n * 10 + digitVal ch)
    else Except.error NumError.invalidDigits

/-- The value `maxUint64/10 + 1`, the cutoff of `strconv.ParseUint` in base 10. -/
def uintCutoff : Nat := (2 ^ 64 - 1) / 10 + 1

/-- The digit loop of `strconv.ParseUint(s, 10, 64)`. -/
def parseUintLoop : Str → Nat → Except NumError Nat
  | [], n => Except.ok n
  | c :: rest, n =>
    if !isDigitChar c then Except.error NumError.invalidDigits
    else if n ≥ uintCutoff then Except.error NumError.outOfRange
    else if n * 10 + digitVal c > 2 ^ 64 - 1 then Except.error NumError.outOfRange
    else parseUintLoop rest (n * 10 + digitVal c)

/-- Go `strconv.ParseUint(s, 10, 0)`. -/
def ParseUint (s : Str) : Except NumError Nat :=
  if s = [] then Except.error NumError.invalidDigits else parseUintLoop s 0

/-- Go `strconv.ParseInt(s, 10, 0)` with 64-bit `int`: sign, unsigned value, range check. -/
def ParseInt (s : Str) : Except NumError Int :=
  match s with
  | [] => Except.error NumError.invalidDigits
  | c :: rest =>
    let neg := decide (c = '-')
    let body := if c = '+' ∨ c = '-' then rest else c :: rest
    match ParseUint body with
    | Except.error NumError.invalidDigits => Except.error NumError.invalidDigits
    | Except.error NumError.outOfRange => Except.error NumError.outOfRange
    | Except.ok un =>
      if !neg ∧ un ≥ 2 ^ 63 then Except.error NumError.outOfRange
      else if neg ∧ un > 2 ^ 63 then Except.error NumError.outOfRange
      else Except.ok (if neg then -(un : Int) else (un : Int))

/-- Go `strconv.Atoi` with 64-bit `int`: the fast path for 1 to 18 bytes, `ParseInt` otherwise.
An `Except.error` is a non-nil `err`; the callers in this program drop the number then. -/
def Atoi (s : Str) : Except NumError Int :=
  if 0 < s.length ∧ s.length < 19 then
    match s with
    | [] => Except.error NumError.invalidDigits
    | c :: rest =>
      if c = '-' ∨ c = '+' then
        if rest.length < 1 then Except.error NumError.invalidDigits
        else match atoiFastLoop rest 0 with
          | Except.error e => Except.error e
          | Except.ok n => Except.ok (if c = '-' then -(n : Int) else (n : Int))
      else match atoiFastLoop (c :: rest) 0 with
        | Except.error e => Except.error e
        | Except.ok n => Except.ok (n : Int)
  else ParseInt s

/-! ## package time: `Parse`

The part of `time.Parse` that the two layouts of the program exercise.  `nextStdChunk` has
the cases of the layout characters `0 1 2 3 4 5 P p . ,`; the cases left out are those of
the characters `J M _ - Z` (month and weekday names, padded days, time zones) and of the
element `002` (day of the year): none of them occurs in `20060102` or `150405.payments`. -/

/-- The layout elements (`std...` constants of `time/format.go`) of the modelled cases. -/
inductive Std where
  | stdLongYear
  | stdYear
  | stdZeroMonth
  | stdNumMonth
  | stdZeroDay
  | stdDay
  | stdHour
  | stdZeroHour12
  | stdHour12
  | stdZeroMinute
  | stdMinute
  | stdZeroSecond
  | stdSecond
  | stdPM
  | stdpm
  | stdFracSecond0 (digits : Nat)
  | stdFracSecond9 (digits : Nat)
  deriving DecidableEq, Repr

/-- The table `std0x` of `time/format.go`, indexed by the digit after the zero. -/
def std0x (c : Char) : Std :=
  if c = '1' then Std.stdZeroMonth
  else if c = '2' then Std.stdZeroDay
  else if c = '3' then Std.stdZeroHour12
  else if c = '4' then Std.stdZeroMinute
  else if c = '5' then Std.stdZeroSecond
  else Std.stdYear

/-- Go `isDigit(s, i)` of `time/format.go`: false past the end. -/
def isDigit (s : Str) (i : Nat) : Bool :=
  match s.get? i with
  | none => false
  | some c => isDigitChar c

/-- Go `commaOrPeriod` of `time/format.go`. -/
def commaOrPeriod (c : Char) : Bool := decide (c = '.') || decide (c = ',')

/-- The body of the `switch` of `nextStdChunk` at one position: `rest` is `layout[i:]`; the
answer is the element that starts there and the layout after it, if one starts there. -/
def stdAt (rest : Str) : Option (Std × Str) :=
  match rest with
  | [] => none
  | c :: cs =>
    if c = '0' then
      match cs with
      | d :: more => if 49 ≤ d.toNat ∧ d.toNat ≤ 54 then some (std0x d, more) else none
      | [] => none
    else if c = '1' then
      match cs with
      | d :: more => if d = '5' then some (Std.stdHour, more) else some (Std.stdNumMonth, cs)
      | [] => some (Std.stdNumMonth, cs)
    else if c = '2' then
      if cs.take 3 = ['0', '0', '6'] then some (Std.stdLongYear, cs.drop 3)
      else some (Std.stdDay, cs)
    else if c = '3' then some (Std.stdHour12, cs)
    else if c = '4' then some (Std.stdMinute, cs)
    else if c = '5' then some (Std.stdSecond, cs)
    else if c = 'P' then
      match cs with
      | d :: more => if d = 'M' then some (Std.stdPM, more) else none
      | [] => none
    else if c = 'p' then
      match cs with
      | d :: more => if d = 'm' then some (Std.stdpm, more) else none
      | [] => none
    else if c = '.' ∨ c = ',' then
      match cs with
      | ch :: _ =>
        if ch = '0' ∨ ch = '9' then
          let run := cs.takeWhile (fun x => decide (x = ch))
          let after := cs.dropWhile (fun x => decide (x = ch))
          if !isDigit after 0 then
            some (if ch = '9' then Std.stdFracSecond9 run.length
                  else Std.stdFracSecond0 run.length, after)
          else none
        else none
      | [] => none
    else none

/-- The scan of `nextStdChunk`: `seen` is `layout[0:i]`, `rest` is `layout[i:]`. -/
def nextStdChunkFrom : Str → Str → Str × Option Std × Str
  | seen, [] => (seen, none, [])
  | seen, c :: cs =>
    match stdAt (c :: cs) with
    | some (std, suffix) => (seen, some std, suffix)
    | none => nextStdChunkFrom (seen ++ [c]) cs

/-- Go `nextStdChunk(layout)`: the literal text before the first element, the element
(`none` is `std == 0`), and the layout after it. -/
def nextStdChunk (layout : Str) : Str × Option Std × Str :=
  nextStdChunkFrom [] layout

/-- The errors of `time.Parse` by kind: a value that does not match the layout element,
a field out of range, text after the end of the layout, a day the month does not have;
`layoutBound` is the answer of the embedding when its loop bound is used up, which no
layout reaches (the bound is the length of the layout plus one). -/
inductive ParseError where
  | mismatch
  | fieldOutOfRange (field : Str)
  | extraText (value : Str)
  | dayOutOfRange
  | layoutBound
  deriving DecidableEq, Repr

/-- Go `leadingInt` of `time/format.go`: the leading digits as a number and the rest of the
text; `none` is `errLeadingInt` (overflow). -/
def leadingInt : Str → Nat → Option (Nat × Str)
  | [], x => some (x, [])
  | c :: rest, x =>
    if !isDigitChar c then some (x, c :: rest)
    else if x > 2 ^ 63 / 10 then none
    else if x * 10 + digitVal c > 2 ^ 63 then none
    else leadingInt rest (x * 10 + digitVal c)

/-- Go `atoi` of `time/format.go`: `x = int(q)` and `x = -x` are 64-bit operations. -/
def timeAtoi (s : Str) : Option Int :=
  let neg := decide (s.head? = some '-')
  let body := if s.head? = some '-' ∨ s.head? = some '+' then s.drop 1 else s
  match leadingInt body 0 with
  | none => none
  | some (q, rem) =>
    if rem ≠ [] then none
    else
      let x : Int := if q < 2 ^ 63 then (q : Int) else (q : Int) - 2 ^ 64
      some (if neg then (if x = -(2 ^ 63) then x else -x) else x)

/-- Go `getnum(s, fixed)` of `time/format.go`: one or two digits (two when `fixed`);
`none` is `errBad`. -/
def getnum : Str → Bool → Option (Int × Str)
  | [], _ => none
  | [a], fixed =>
    if isDigitChar a then (if fixed then none else some ((digitVal a : Int), []))
    else none
  | a :: b :: rest, fixed =>
    if isDigitChar a then
      if isDigitChar b then some ((digitVal a : Int) * 10 + (digitVal b : Int), rest)
      else if fixed then none
      else some ((digitVal a : Int), b :: rest)
    else none

/-- Go `skip(value, prefix)` of `time/format.go` for a literal text without spaces (neither
layout holds a space): the value must start with the text; `none` is `errBad`. -/
def skip : Str → Str → Option Str
  | value, [] => some value
  | [], _ :: _ => none
  | v :: value, p :: pfx => if v = p then skip value pfx else none

/-- Go `parseNanoseconds(value, nbytes)` of `time/format.go`. -/
def parseNanoseconds (value : Str) (nbytes : Nat) : Except ParseError Int :=
  match value with
  | [] => Except.error ParseError.mismatch
  | c :: _ =>
    if !commaOrPeriod c then Except.error ParseError.mismatch
    else
      let nb := if nbytes > 10 then 10 else nbytes
      match timeAtoi ((value.take nb).drop 1) with
      | none => Except.error ParseError.mismatch
      | some ns =>
        if ns < 0 then Except.error (ParseError.fieldOutOfRange "fractional second".toList)
        else Except.ok (ns * 10 ^ (10 - nb))

/-- The variables that `Parse` fills in (`yday` stays unset without the element `002`). -/
structure Fields where
  year : Int
  month : Int
  day : Int
  hour : Int
  min : Int
  sec : Int
  nsec : Int
  amSet : Bool
  pmSet : Bool
  deriving DecidableEq, Repr

/-- The initial values of the variables of `Parse`. -/
def Fields.init : Fields :=
  { year := 0, month := -1, day := -1, hour := 0, min := 0, sec := 0, nsec := 0,
    amSet := false, pmSet := false }

/-- One arm of the `switch std & stdMask` of `Parse`, with the two checks that follow it
(`rangeErrString` first, then `err`): the new variables and the rest of the value.
`layout` is the layout after the element, which the seconds arm looks at. -/
def parseElem (std : Std) (layout value : Str) (f : Fields) :
    Except ParseError (Fields × Str) :=
  match std with
  | Std.stdYear =>
    if value.length < 2 then Except.error ParseError.mismatch
    else match timeAtoi (value.take 2) with
      | none => Except.error ParseError.mismatch
      | some y =>
        Except.ok ({ f with year := if y ≥ 69 then y + 1900 else y + 2000 }, value.drop 2)
  | Std.stdLongYear =>
    if value.length < 4 ∨ !isDigit value 0 then Except.error ParseError.mismatch
    else match timeAtoi (value.take 4) with
      | none => Except.error ParseError.mismatch
      | some y => Except.ok ({ f with year := y }, value.drop 4)
  | Std.stdNumMonth | Std.stdZeroMonth =>
    match getnum value (decide (std = Std.stdZeroMonth)) with
    | none => Except.error ParseError.mismatch
    | some (month, rest) =>
      if month ≤ 0 ∨ 12 < month then Except.error (ParseError.fieldOutOfRange "month".toList)
      else Except.ok ({ f with month := month }, rest)
  | Std.stdDay | Std.stdZeroDay =>
    match getnum value (decide (std = Std.stdZeroDay)) with
    | none => Except.error ParseError.mismatch
    | some (day, rest) => Except.ok ({ f with day := day }, rest)
  | Std.stdHour =>
    match getnum value false with
    | none => Except.error ParseError.mismatch
    | some (hour, rest) =>
      if hour < 0 ∨ 24 ≤ hour then Except.error (ParseError.fieldOutOfRange "hour".toList)
      else Except.ok ({ f with hour := hour }, rest)
  | Std.stdHour12 | Std.stdZeroHour12 =>
    match getnum value (decide (std = Std.stdZeroHour12)) with
    | none => Except.error ParseError.mismatch
    | some (hour, rest) =>
      if hour < 0 ∨ 12 < hour then Except.error (ParseError.fieldOutOfRange "hour".toList)
      else Except.ok ({ f with hour := hour }, rest)
  | Std.stdMinute | Std.stdZeroMinute =>
    match getnum value (decide (std = Std.stdZeroMinute)) with
    | none => Except.error ParseError.mismatch
    | some (min, rest) =>
      if min < 0 ∨ 60 ≤ min then Except.error (ParseError.fieldOutOfRange "minute".toList)
      else Except.ok ({ f with min := min }, rest)
  | Std.stdSecond | Std.stdZeroSecond =>
    match getnum value (decide (std = Std.stdZeroSecond)) with
    | none => Except.error ParseError.mismatch
    | some (sec, rest) =>
      if sec < 0 ∨ 60 ≤ sec then Except.error (ParseError.fieldOutOfRange "second".toList)
      else
        -- Special case: a fractional second in the value but none in the layout.
        match rest with
        | c :: _ :: _ =>
          if commaOrPeriod c ∧ isDigit rest 1 then
            match (nextStdChunk layout).2.1 with
            | some (Std.stdFracSecond0 _) => Except.ok ({ f with sec := sec }, rest)
            | some (Std.stdFracSecond9 _) => Except.ok ({ f with sec := sec }, rest)
            | _ =>
              let n := 2 + ((rest.drop 2).takeWhile isDigitChar).length
              match parseNanoseconds rest n with
              | Except.error e => Except.error e
              | Except.ok nsec => Except.ok ({ f with sec := sec, nsec := nsec }, rest.drop n)
          else Except.ok ({ f with sec := sec }, rest)
        | _ => Except.ok ({ f with sec := sec }, rest)
  | Std.stdPM =>
    if value.length < 2 then Except.error ParseError.mismatch
    else if value.take 2 = ['P', 'M'] then Except.ok ({ f with pmSet := true }, value.drop 2)
    else if value.take 2 = ['A', 'M'] then Except.ok ({ f with amSet := true }, value.drop 2)
    else Except.error ParseError.mismatch
  | Std.stdpm =>
    if value.length < 2 then Except.error ParseError.mismatch
    else if value.take 2 = ['p', 'm'] then Except.ok ({ f with pmSet := true }, value.drop 2)
    else if value.take 2 = ['a', 'm'] then Except.ok ({ f with amSet := true }, value.drop 2)
    else Except.error ParseError.mismatch
  | Std.stdFracSecond0 digits =>
    let ndigit := 1 + digits
    if value.length < ndigit then Except.error ParseError.mismatch
    else match parseNanoseconds value ndigit with
      | Except.error e => Except.error e
      | Except.ok nsec => Except.ok ({ f with nsec := nsec }, value.drop ndigit)
  | Std.stdFracSecond9 _ =>
    if value.length < 2 ∨ !commaOrPeriod (value.headD 'x') ∨ !isDigit value 1 then
      Except.ok (f, value)
    else
      let i := ((value.drop 1).takeWhile isDigitChar).length
      match parseNanoseconds value (1 + i) with
      | Except.error e => Except.error e
      | Except.ok nsec => Except.ok ({ f with nsec := nsec }, value.drop (1 + i))

/-- The main loop of `Parse`: one layout chunk per turn, until the layout has no element
left; then the value must be used up. -/
def parseLoop : Nat → Str → Str → Fields → Except ParseError Fields
  | 0, _, _, _ => Except.error ParseError.layoutBound
  | fuel + 1, layout, value, f =>
    match nextStdChunk layout with
    | (pfx, std, suffix) =>
      match skip value pfx with
      | none => Except.error ParseError.mismatch
      | some value1 =>
        match std with
        | none =>
          if value1.length ≠ 0 then Except.error (ParseError.extraText value1)
          else Except.ok f
        | some s =>
          match parseElem s suffix value1 f with
          | Except.error e => Except.error e
          | Except.ok (f1, value2) => parseLoop fuel suffix value2 f1

/-- Go `isLeap` of `time/time.go`; `%` is the truncated remainder of Go. -/
def isLeap (year : Int) : Bool :=
  decide (year.tmod 4 = 0) && (decide (year.tmod 100 ≠ 0) || decide (year.tmod 400 = 0))

/-- The table `daysBefore` of `time/time.go`: days of a non-leap year before month `m+1`. -/
def daysBefore : List Int :=
  [0, 31, 31 + 28, 31 + 28 + 31, 31 + 28 + 31 + 30, 31 + 28 + 31 + 30 + 31,
   31 + 28 + 31 + 30 + 31 + 30, 31 + 28 + 31 + 30 + 31 + 30 + 31,
   31 + 28 + 31 + 30 + 31 + 30 + 31 + 31, 31 + 28 + 31 + 30 + 31 + 30 + 31 + 31 + 30,
   31 + 28 + 31 + 30 + 31 + 30 + 31 + 31 + 30 + 31,
   31 + 28 + 31 + 30 + 31 + 30 + 31 + 31 + 30 + 31 + 30,
   31 + 28 + 31 + 30 + 31 + 30 + 31 + 31 + 30 + 31 + 30 + 31]

/-- Go `daysIn(m, year)` of `time/time.go`, for a month `1..12`. -/
def daysIn (m : Int) (year : Int) : Int :=
  if m = 2 ∧ isLeap year then 29
  else daysBefore.getD m.toNat 0 - daysBefore.getD (m.toNat - 1) 0

/-- Go `time.Parse(layout, value)` up to the validated fields: the loop, the adjustment of the
hour, the defaults of month and day, and the validation of the day of the month.  The
conversion of the fields to a `Time` cannot fail and its value is not used by the program. -/
def timeParse (layout value : Str) : Except ParseError Fields :=
  match parseLoop (layout.length + 1) layout value Fields.init with
  | Except.error e => Except.error e
  | Except.ok f =>
    let hour := if f.pmSet ∧ f.hour < 12 then f.hour + 12
                else if f.amSet ∧ f.hour = 12 then 0 else f.hour
    let month := if f.month < 0 then 1 else f.month
    let day := if f.day < 0 then 1 else f.day
    if day < 1 ∨ day > daysIn month f.year then Except.error ParseError.dayOutOfRange
    else Except.ok { f with hour := hour, month := month, day := day }

/-! ## package payment: the name validators -/

/-- The layout of a directory name. -/
def dateLayout : Str := "20060102".toList

/-- The layout of a file name. -/
def timeLayout : Str := "150405.payments".toList

/-- The errors built by `fmt.Errorf` in the two validators: the offending name and the
error of `time.Parse`. -/
inductive NameError where
  | invalidDirectoryName (s : Str) (cause : ParseError)
  | invalidFileName (s : Str) (cause : ParseError)
  deriving DecidableEq, Repr

/-- Go `PaymentsService.validateDirName`: `none` is the `nil` error. -/
def validateDirName (s : Str) : Option NameError :=
  match timeParse dateLayout s with
  | Except.error err => some (NameError.invalidDirectoryName s err)
  | Except.ok _ => none

/-- Go `PaymentsService.validateFileName`: `none` is the `nil` error. -/
def validateFileName (s : Str) : Option NameError :=
  match timeParse timeLayout s with
  | Except.error err => some (NameError.invalidFileName s err)
  | Except.ok _ => none

/-! ## package encoding/csv: `Reader.ReadAll` with the default settings

`csv.NewReader` sets `Comma = ','` and leaves `Comment`, `LazyQuotes`, `TrimLeadingSpace`
and `FieldsPerRecord` at zero.  The underlying reader is a string, so reading never fails. -/

/-- The line feed. -/
def NL : Char := Char.ofNat 10

/-- The carriage return. -/
def CR : Char := Char.ofNat 13

/-- The double quote. -/
def dquote : Char := Char.ofNat 34

/-- The field delimiter `Reader.Comma`. -/
def comma : Char := ','

/-- The values of `ParseError.Err` of package `csv`; `readBound` is the answer of the
embedding when a loop bound is used up, which does not happen: each bound is the size of the
text left (theorem `csvReadAll_ne_readBound`). -/
inductive CsvError where
  | ErrBareQuote
  | ErrQuote
  | ErrFieldCount
  | readBound
  deriving DecidableEq, Repr

/-- Go `lengthNL(b)`: 1 when `b` ends with a line feed, else 0. -/
def lengthNL (b : Str) : Nat :=
  if b.getLast? = some NL then 1 else 0

/-- The input cut by `bufio.Reader.ReadSlice` at each line feed: every piece ends with the
line feed, but for a last piece that ended at the end of the input. -/
def rawLines : Str → List Str
  | [] => []
  | c :: cs =>
    if c = NL then [NL] :: rawLines cs
    else match rawLines cs with
      | [] => [[c]]
      | l :: ls => (c :: l) :: ls

/-- What `Reader.readLine` does to a piece: a carriage return before the end of the input is
dropped, and a final carriage return plus line feed becomes a line feed. -/
def readLineNorm (line : Str) : Str :=
  let line1 :=
    if line.getLast? ≠ some NL ∧ line.getLast? = some CR then line.dropLast else line
  if line1.length ≥ 2 ∧ line1.get? (line1.length - 2) = some CR ∧ line1.getLast? = some NL
  then line1.take (line1.length - 2) ++ [NL]
  else line1

/-- The lines that successive calls of `readLine` return before `io.EOF`. -/
def readLines (input : Str) : List Str :=
  (rawLines input).map readLineNorm

/-- The first loop of `readRecord`: empty lines are skipped. -/
def skipEmptyLines : List Str → List Str
  | [] => []
  | line :: rest =>
    if line.length = lengthNL line then skipEmptyLines rest else line :: rest

/-- The result of the `parseField` loop of `readRecord`: an error, or the fields of the
record and the lines not read yet. -/
inductive Lexed where
  | failed (e : CsvError)
  | record (fields : List Str) (rest : List Str)
  deriving DecidableEq, Repr

/-- The `parseField` loop of `readRecord`.  `line` is the rest of the current line, `lines`
the lines not read yet, `fields` the fields completed so far; `quoted` is `none` at the
start of a field and `some buf` inside a quoted field whose text so far is `buf`. -/
def parseFields : Nat → Str → List Str → List Str → Option Str → Lexed
  | 0, _, _, _, _ => Lexed.failed CsvError.readBound
  | fuel + 1, line, lines, fields, none =>
    if line = [] ∨ line.head? ≠ some dquote then
      -- Non-quoted string field
      match stringsCut comma line with
      | some (field, after) =>
        if dquote ∈ field then Lexed.failed CsvError.ErrBareQuote
        else parseFields fuel after lines (fields ++ [field]) none
      | none =>
        let field := line.take (line.length - lengthNL line)
        if dquote ∈ field then Lexed.failed CsvError.ErrBareQuote
        else Lexed.record (fields ++ [field]) lines
    else
      -- Quoted string field
      parseFields fuel (line.drop 1) lines fields (some [])
  | fuel + 1, line, lines, fields, some buf =>
    match stringsCut dquote line with
    | some (pre, after) =>
      -- Hit next quote.
      match after with
      | c :: more =>
        if c = dquote then parseFields fuel more lines fields (some (buf ++ pre ++ [dquote]))
        else if c = comma then parseFields fuel more lines (fields ++ [buf ++ pre]) none
        else if lengthNL after = after.length then Lexed.record (fields ++ [buf ++ pre]) lines
        else Lexed.failed CsvError.ErrQuote
      | [] => Lexed.record (fields ++ [buf ++ pre]) lines
    | none =>
      if line.length > 0 then
        -- Hit end of line (copy all data so far).
        match lines with
        | next :: rest => parseFields fuel next rest fields (some (buf ++ line))
        | [] => parseFields fuel [] [] fields (some (buf ++ line))
      else
        -- Abrupt end of file.
        Lexed.failed CsvError.ErrQuote

/-- The bound of the `parseField` loop for a record that starts with `line`: every turn of
the loop uses up a byte of the text left, or moves to the next line. -/
def recordBound (line : Str) (rest : List Str) : Nat :=
  (line :: rest).flatten.length + 1

/-- The loop of `Reader.ReadAll` around `readRecord`, on the lines not read yet:
`fieldsPerRecord` is the field of the reader (positive: every record must have that many
fields; zero: the first record sets it; negative: no check), `records` the result so far. -/
def readAllLoop : Nat → Int → List Str → Slice (List Str) → Slice (List Str) × Option CsvError
  | 0, _, _, _ => (none, some CsvError.readBound)
  | fuel + 1, fieldsPerRecord, lines, records =>
    match skipEmptyLines lines with
    | [] => (records, none)
    | line :: rest =>
      match parseFields (recordBound line rest) line rest [] none with
      | Lexed.failed e => (none, some e)
      | Lexed.record dst rest1 =>
        if fieldsPerRecord > 0 then
          if (dst.length : Int) ≠ fieldsPerRecord then (none, some CsvError.ErrFieldCount)
          else readAllLoop fuel fieldsPerRecord rest1 (sliceAppend records dst)
        else if fieldsPerRecord = 0 then
          readAllLoop fuel (dst.length : Int) rest1 (sliceAppend records dst)
        else readAllLoop fuel fieldsPerRecord rest1 (sliceAppend records dst)

/-- Go `Reader.ReadAll` of a reader over `input` with the given `FieldsPerRecord`. -/
def csvReadAll (fieldsPerRecord : Int) (input : Str) : Slice (List Str) × Option CsvError :=
  readAllLoop ((readLines input).length + 1) fieldsPerRecord (readLines input) none

/-- Go `csv.NewReader(r).ReadAll()`. -/
def ReadAll (input : Str) : Slice (List Str) × Option CsvError :=
  csvReadAll 0 input

/-! ## package payment: the record parser -/

/-- The external representation of a payment. -/
structure Payment where
  AsOf : Int
  Sequence : Int
  Amount : Int
  Comment : Str
  deriving DecidableEq, Repr

/-- The body of the loop of `parsePayments` for a row after the header: `none` is
`continue`; an index past the end of the row panics.  The log lines are not modelled. -/
def parseRow (row : List Str) : Exec (Option Payment) :=
  match row.get? 0 with
  | none => Exec.panics
  | some col0 =>
    match row.get? 1 with
    | none => Exec.panics
    | some col1 =>
      match Atoi (col0 ++ col1) with
      | Except.error _ => Exec.returns none
      | Except.ok dateTime =>
        match row.get? 2 with
        | none => Exec.panics
        | some col2 =>
          match Atoi col2 with
          | Except.error _ => Exec.returns none
          | Except.ok sequence =>
            match row.get? 3 with
            | none => Exec.panics
            | some col3 =>
              match Atoi col3 with
              | Except.error _ => Exec.returns none
              | Except.ok amount =>
                match row.get? 4 with
                | none => Exec.panics
                | some comment =>
                  Exec.returns (some { AsOf := dateTime, Sequence := sequence,
                                       Amount := amount, Comment := comment })

/-- The loop `for i, row := range records` of `parsePayments`. -/
def parsePaymentsLoop : Nat → List (List Str) → Slice Payment → Exec (Slice Payment)
  | _, [], payments => Exec.returns payments
  | i, row :: rest, payments =>
    if i = 0 then parsePaymentsLoop (i + 1) rest payments
    else match parseRow row with
      | Exec.panics => Exec.panics
      | Exec.returns none => parsePaymentsLoop (i + 1) rest payments
      | Exec.returns (some payment) =>
        parsePaymentsLoop (i + 1) rest (sliceAppend payments payment)

/-- Go `PaymentsService.parsePayments` on a reader over the text `r`: the pair of results. -/
def parsePayments (r : Str) : Exec (Slice Payment × Option CsvError) :=
  match ReadAll r with
  | (_, some err) => Exec.returns (none, some err)
  | (records, none) =>
    match parsePaymentsLoop 0 (records.getD []) (some []) with
    | Exec.panics => Exec.panics
    | Exec.returns payments => Exec.returns (payments, none)

/-- The record of a row in the words of the specification, for a row that starts with the
five columns date, time, sequence, amount, comment: the date and time columns concatenated
and parsed, the sequence and the amount parsed, the comment verbatim; no record when one of
the three parses fails. -/
def recordOfRow (row : List Str) : Option Payment :=
  match row with
  | date :: time :: sequence :: amount :: comment :: _ =>
    match Atoi (date ++ time), Atoi sequence, Atoi amount with
    | Except.ok t, Except.ok s, Except.ok a =>
      some { AsOf := t, Sequence := s, Amount := a, Comment := comment }
    | _, _, _ => none
  | _ => none

/-- The records of a table in the words of the specification: the header is skipped, the
other rows give their record in row order. -/
def expectedPayments (table : List (List Str)) : List Payment :=
  (table.drop 1).filterMap recordOfRow

/-! ## package path/filepath (Unix) -/

/-- The inner loop of the `..` case of `filepath.Clean`, on the reversed output buffer:
`popped` is the byte at index `out.w`; bytes are dropped while `out.w > dotdot` and the
byte at `out.w` is not a separator. -/
def cleanBacktrack (dotdot : Nat) : Char → Str → Str
  | _, [] => []
  | popped, c :: cs =>
    if (c :: cs).length > dotdot ∧ popped ≠ slash then cleanBacktrack dotdot c cs
    else c :: cs

/-- The main loop of `filepath.Clean`: `path` is the text from index `r` on, `outRev` the
output buffer reversed (its length is `out.w`). -/
def cleanLoop (rooted : Bool) : Nat → Str → Str → Nat → Str
  | 0, _, outRev, _ => outRev
  | _ + 1, [], outRev, _ => outRev
  | fuel + 1, c :: cs, outRev, dotdot =>
    if c = slash then
      -- empty path element
      cleanLoop rooted fuel cs outRev dotdot
    else if c = '.' ∧ (cs = [] ∨ cs.head? = some slash) then
      -- . element
      cleanLoop rooted fuel cs outRev dotdot
    else if c = '.' ∧ cs.head? = some '.'
        ∧ (cs.drop 1 = [] ∨ (cs.drop 1).head? = some slash) then
      -- .. element: remove to last separator
      if outRev.length > dotdot then
        match outRev with
        | [] => cleanLoop rooted fuel (cs.drop 1) outRev dotdot
        | last :: more =>
          cleanLoop rooted fuel (cs.drop 1) (cleanBacktrack dotdot last more) dotdot
      else if !rooted then
        let out1 := if outRev.length > 0 then slash :: outRev else outRev
        cleanLoop rooted fuel (cs.drop 1) ('.' :: '.' :: out1) (out1.length + 2)
      else cleanLoop rooted fuel (cs.drop 1) outRev dotdot
    else
      -- real path element: add slash if needed, copy element
      let out1 :=
        if (rooted ∧ outRev.length ≠ 1) ∨ (!rooted ∧ outRev.length ≠ 0) then slash :: outRev
        else outRev
      let elem := (c :: cs).takeWhile (fun x => decide (x ≠ slash))
      cleanLoop rooted fuel ((c :: cs).dropWhile (fun x => decide (x ≠ slash)))
        (elem.reverse ++ out1) dotdot

/-- Go `filepath.Clean(path)`. -/
def filepathClean (path : Str) : Str :=
  match path with
  | [] => ['.']
  | c :: _ =>
    let rooted := decide (c = slash)
    let outRev :=
      if rooted then cleanLoop true (path.length + 1) (path.drop 1) [slash] 1
      else cleanLoop false (path.length + 1) path [] 0
    if outRev.length = 0 then ['.'] else outRev.reverse

/-- Go `filepath.Join(elem...)`: the elements from the first non-empty one on are joined with
the separator and cleaned; the empty string when every element is empty. -/
def filepathJoin : List Str → Str
  | [] => []
  | e :: rest =>
    if e ≠ [] then filepathClean (stringsJoin (e :: rest) [slash])
    else filepathJoin rest

/-! ## package os, as seen by the service -/

/-- The errors of the file system calls. -/
inductive OsError where
  | ErrNotExist
  | ErrPermission
  | ErrNotDir
  | ErrOther
  deriving DecidableEq, Repr

/-- An `os.DirEntry`: the name of the entry and whether it is a directory. -/
structure DirEntry where
  Name : Str
  IsDir : Bool
  deriving DecidableEq, Repr

/-- A state of the file system: what `os.ReadDir` and `ioutil.ReadFile` return for a path
(the entries or content read, and the error). -/
structure FileSystem where
  ReadDir : Str → List DirEntry × Option OsError
  ReadFile : Str → Str × Option OsError

/-! ## package payment: the service -/

/-- The base building block of the payments service. -/
structure PaymentsService where
  BaseDir : Str
  deriving DecidableEq, Repr

/-- Go `NewWithBaseDir`: the service, or `none` (a nil pointer) with the error of `os.ReadDir`. -/
def NewWithBaseDir (fs : FileSystem) (baseDir : Str) : Option PaymentsService × Option OsError :=
  match (fs.ReadDir baseDir).2 with
  | some err => (none, some err)
  | none => (some { BaseDir := baseDir }, none)

/-- The loop of `ListDirectories` over the entries: an entry whose name is not valid is
logged and skipped. -/
def listDirectoriesLoop : List DirEntry → Slice Str → Slice Str
  | [], directories => directories
  | entry :: rest, directories =>
    match validateDirName entry.Name with
    | some _ => listDirectoriesLoop rest directories
    | none => listDirectoriesLoop rest (sliceAppend directories entry.Name)

/-- Go `PaymentsService.ListDirectories`. -/
def ListDirectories (fs : FileSystem) (p : PaymentsService) : Slice Str × Option OsError :=
  match fs.ReadDir p.BaseDir with
  | (_, some err) => (none, some err)
  | (entries, none) => (listDirectoriesLoop entries (some []), none)

/-- The loop of `ListPayments` over the entries: an entry whose name is not valid is logged
and skipped. -/
def listPaymentsLoop : List DirEntry → Slice Str → Slice Str
  | [], payments => payments
  | entry :: rest, payments =>
    match validateFileName entry.Name with
    | some _ => listPaymentsLoop rest payments
    | none => listPaymentsLoop rest (sliceAppend payments entry.Name)

/-- Go `PaymentsService.ListPayments`. -/
def ListPayments (fs : FileSystem) (p : PaymentsService) (dir : Str) :
    Slice Str × Option OsError :=
  let paymentsDirPath := filepathJoin [p.BaseDir, dir]
  match fs.ReadDir paymentsDirPath with
  | (_, some err) => (none, some err)
  | (entries, none) => (listPaymentsLoop entries (some []), none)

/-- The error values that a method of the service returns: the error of the file system call
or the error of the CSV reader. -/
inductive ServiceError where
  | os (err : OsError)
  | csv (err : CsvError)
  deriving DecidableEq, Repr

/-- Go `PaymentsService.GetPayments`: the file at `BaseDir` joined with `path` is read and
its content is given to `parsePayments`. -/
def GetPayments (fs : FileSystem) (p : PaymentsService) (path : Str) :
    Exec (Slice Payment × Option ServiceError) :=
  let paymentsPath := filepathJoin [p.BaseDir, path]
  match fs.ReadFile paymentsPath with
  | (_, some err) => Exec.returns (none, some (ServiceError.os err))
  | (rawCSV, none) =>
    match parsePayments rawCSV with
    | Exec.panics => Exec.panics
    | Exec.returns (payments, none) => Exec.returns (payments, none)
    | Exec.returns (payments, some err) => Exec.returns (payments, some (ServiceError.csv err))

/-- The single quote that `fmt.Errorf` puts around the name. -/
def apostrophe : Char := Char.ofNat 39

/-- The text `err.Error()` of the error of a validator, as `fmt.Errorf` formats it with the
verbs `%s`: the fixed words, the name between single quotes, a colon, and the text of the
error of `time.Parse`.  That last text is a function of the layout and of the value parsed;
it is the parameter `parseErrorText`. -/
def NameError.Error (parseErrorText : Str → Str → Str) : NameError → Str
  | NameError.invalidDirectoryName s _ =>
    "invalid directory name ".toList ++ [apostrophe] ++ s ++ [apostrophe] ++ ": ".toList
      ++ parseErrorText dateLayout s
  | NameError.invalidFileName s _ =>
    "invalid file name ".toList ++ [apostrophe] ++ s ++ [apostrophe] ++ ": ".toList
      ++ parseErrorText timeLayout s

/-! ## package net/http, as seen by the handler

A response writer keeps the header map of the handler; `WriteHeader` fixes the status and
the headers that are sent, and a change of the header map after it has no effect on the
response.  The headers that the server adds on its own (date, length, a content type found
by sniffing the body) are not modelled. -/

/-- The state of an `http.ResponseWriter`: the header map that `Header()` returns, whether
the header was written, the status and the headers sent with it, and the body written. -/
structure ResponseWriter where
  handlerHeader : List (Str × Str)
  wroteHeader : Bool
  status : Nat
  sentHeader : List (Str × Str)
  body : Str
  deriving DecidableEq, Repr

/-- The response writer that the server hands to the handler. -/
def ResponseWriter.fresh : ResponseWriter :=
  { handlerHeader := [], wroteHeader := false, status := 0, sentHeader := [], body := [] }

/-- Go `w.WriteHeader(code)`: the first call fixes the status and takes the headers set so
far; a later call is ignored. -/
def ResponseWriter.WriteHeader (w : ResponseWriter) (code : Nat) : ResponseWriter :=
  if w.wroteHeader then w
  else { w with wroteHeader := true, status := code, sentHeader := w.handlerHeader }

/-- Go `w.Header().Add(key, value)`: the header map of the handler gets one more value. -/
def ResponseWriter.HeaderAdd (w : ResponseWriter) (key value : Str) : ResponseWriter :=
  { w with handlerHeader := w.handlerHeader ++ [(key, value)] }

/-- Go `w.Write(b)`: the header is written with status 200 if it was not written yet, then
the bytes are added to the body. -/
def ResponseWriter.Write (w : ResponseWriter) (b : Str) : ResponseWriter :=
  let w1 := if w.wroteHeader then w else w.WriteHeader 200
  { w1 with body := w1.body ++ b }

/-! ## package encoding/json, as seen by the handler -/

/-- The error of `json.Marshal`. -/
inductive JsonError where
  | marshalError
  deriving DecidableEq, Repr

/-- The answers of `json.Marshal` (the bytes and the error) for the two kinds of value that
the handler encodes.  The encoder is a parameter of the handler: the status, the headers
and the error bodies of a response do not depend on how a value is encoded. -/
structure JsonEncoder where
  MarshalStrings : Slice Str → Str × Option JsonError
  MarshalPayments : Slice Payment → Str × Option JsonError

/-! ## package api: the handler -/

/-- The main API handler. -/
structure Handler where
  paymentsService : PaymentsService
  deriving DecidableEq, Repr

/-- Go `NewHandler`: the handler, or `none` with the error of `NewWithBaseDir`. -/
def NewHandler (fs : FileSystem) (baseDir : Str) : Option Handler × Option OsError :=
  match NewWithBaseDir fs baseDir with
  | (_, some err) => (none, some err)
  | (none, none) => (none, none)
  | (some paymentsService, none) => (some { paymentsService := paymentsService }, none)

/-- The body of the 404 answer. -/
def notFoundBody : Str := "not found".toList

/-- The body of the 500 answer. -/
def serverErrorBody : Str := "server error".toList

/-- Go `Handler.serveNotFound`. -/
def serveNotFound (w : ResponseWriter) : ResponseWriter :=
  (w.WriteHeader 404).Write notFoundBody

/-- Go `Handler.serveError`. -/
def serveError (w : ResponseWriter) : ResponseWriter :=
  (w.WriteHeader 500).Write serverErrorBody

/-- The three lines that end a successful answer: `w.WriteHeader(200)`, then
`w.Header().Add("content-type", "application/json")`, then `w.Write(body)`. -/
def serveJSON (w : ResponseWriter) (body : Str) : ResponseWriter :=
  (((w.WriteHeader 200).HeaderAdd "content-type".toList "application/json".toList).Write body)

/-- A call of a method of the payments service. -/
inductive ServiceCall where
  | GetPayments (path : Str)
  | ListDirectories
  | ListPayments (dir : Str)
  deriving DecidableEq, Repr

/-- What serving a request comes to: the calls made on the payments service, in order, and
the response writer at the return of `ServeHTTP` or the panic that ended it. -/
structure Served where
  calls : List ServiceCall
  outcome : Exec ResponseWriter
  deriving DecidableEq, Repr

/-- Go `Handler.ServeHTTP` for a request whose `URL.Path` is `urlPath` (nothing else of the
request is read).  The log lines are not modelled. -/
def ServeHTTP (fs : FileSystem) (json : JsonEncoder) (h : Handler) (w : ResponseWriter)
    (urlPath : Str) : Served :=
  match parsePath urlPath with
  | (PathType.PATH_PAYMENT, urlParams) =>
    -- Call GetPayments with all available URL params
    let path := stringsJoin (urlParams.getD []) [slash]
    { calls := [ServiceCall.GetPayments path],
      outcome :=
        match GetPayments fs h.paymentsService path with
        | Exec.panics => Exec.panics
        | Exec.returns (_, some _) => Exec.returns (serveNotFound w)
        | Exec.returns (payments, none) =>
          match json.MarshalPayments payments with
          | (_, some _) => Exec.returns (serveError w)
          | (paymentsJSON, none) => Exec.returns (serveJSON w paymentsJSON) }
  | (PathType.PATH_ROOT, _) =>
    { calls := [ServiceCall.ListDirectories],
      outcome :=
        match ListDirectories fs h.paymentsService with
        | (_, some _) => Exec.returns (serveError w)
        | (dirs, none) =>
          match json.MarshalStrings dirs with
          | (_, some _) => Exec.returns (serveError w)
          | (dirsJSON, none) => Exec.returns (serveJSON w dirsJSON) }
  | (PathType.PATH_DIR, urlParams) =>
    -- Call ListPayments with a single parameter, like "YYYYMMDD":
    match (urlParams.getD []).get? 0 with
    | none => { calls := [], outcome := Exec.panics }
    | some dir =>
      { calls := [ServiceCall.ListPayments dir],
        outcome :=
          match ListPayments fs h.paymentsService dir with
          | (_, some _) => Exec.returns (serveNotFound w)
          | (dirs, none) =>
            match json.MarshalStrings dirs with
            | (_, some _) => Exec.returns (serveError w)
            | (dirsJSON, none) => Exec.returns (serveJSON w dirsJSON) }
  | (PathType.PATH_ERROR, _) =>
    { calls := [], outcome := Exec.returns (serveError w) }

/-- Whether `strconv.Atoi` returns an error on a column. -/
def integerParseFails (s : Str) : Bool :=
  match Atoi s with
  | Except.error _ => true
  | Except.ok _ => false

/-- A row that fails an integer parse: the row has the columns of a parse that fails (date
and time, sequence, or amount) and of the parses before it. -/
def rowFailsIntegerParse : List Str → Bool
  | date :: time :: rest =>
    integerParseFails (date ++ time)
      || (match rest with
          | sequence :: rest2 =>
            integerParseFails sequence
              || (match rest2 with
                  | amount :: _ => integerParseFails amount
                  | [] => false)
          | [] => false)
  | _ => false

/-- The header row of a payments file. -/
def sampleHeader : Str := "date,time,sequence,amount,comment".toList

/-- A payments file: the header, a well-formed row, a row whose amount is not a number, and
a well-formed row with a negative amount and an empty comment. -/
def sampleCsv : Str :=
  sampleHeader ++ NL :: "20220717,090000,211,500,payment2".toList
    ++ NL :: "20220717,090000,212,x,payment3".toList
    ++ NL :: "20220717,090001,213,-7,".toList

/-- The table that the CSV reader makes of `sampleCsv`. -/
def sampleTable : List (List Str) :=
  [["date".toList, "time".toList, "sequence".toList, "amount".toList, "comment".toList],
   ["20220717".toList, "090000".toList, "211".toList, "500".toList, "payment2".toList],
   ["20220717".toList, "090000".toList, "212".toList, "x".toList, "payment3".toList],
   ["20220717".toList, "090001".toList, "213".toList, "-7".toList, []]]

/-- A file of one row of three columns. -/
def threeColumnCsv : Str := "a,b,c".toList

/-- A file whose two rows have six columns each. -/
def sixColumnCsv : Str :=
  "date,time,sequence,amount,comment,extra".toList
    ++ NL :: "20220717,090000,211,500,payment2,zzz".toList

/-- A file whose second row has fewer columns than its first row. -/
def raggedCsv : Str := "a,b,c".toList ++ NL :: "d,e".toList

/-- The payment of the test data of the repository. -/
def samplePayment : Payment :=
  { AsOf := 20220717090000, Sequence := 211, Amount := 500, Comment := "payment2".toList }

/-- A file whose only row would be a well-formed data row. -/
def dataRowOnlyCsv : Str := "20220717,090000,211,500,x".toList

/-- A file in which every row after the header fails an integer parse: the date, the
sequence and the amount in turn. -/
def allSkippedCsv : Str :=
  sampleHeader ++ NL :: "2022-07-17,090000,211,500,a".toList
    ++ NL :: "20220717,090000,,500,b".toList
    ++ NL :: "20220717,090000,211,5.00,c".toList

/-- A file system with four listable directories: `/data` holds the directory `2022`, the
day directory `20220717` and the directory `junk`; `/data/20220717` holds a payments file
and a stray file; `/data/junk` holds a payments file; `/void` holds nothing.  Every other
path is absent. -/
def sampleFileSystem : FileSystem where
  ReadDir := fun path =>
    if path = "/data".toList then
      ([{ Name := "2022".toList, IsDir := true }, { Name := "20220717".toList, IsDir := true },
        { Name := "junk".toList, IsDir := true }], none)
    else if path = "/data/20220717".toList then
      ([{ Name := "090000.payments".toList, IsDir := false },
        { Name := "notes.txt".toList, IsDir := false }], none)
    else if path = "/data/junk".toList then
      ([{ Name := "123000.payments".toList, IsDir := false }], none)
    else if path = "/void".toList then ([], none)
    else ([], some OsError.ErrNotExist)
  ReadFile := fun path =>
    if path = "/data/20220717/090000.payments".toList then (sampleCsv, none)
    else ([], some OsError.ErrNotExist)

/-- The content of the file `20220717/090000.payments` of the tests of the handler: the
header and two data rows, of sequence 211 and 212. -/
def twoRowCsv : Str :=
  sampleHeader ++ NL :: "20220717,090000,211,500,payment2".toList
    ++ NL :: "20220717,090000,212,600,payment3".toList

/-- A file of three-column rows: the header and a data row whose columns are numbers. -/
def shortRowsCsv : Str := "a,b,c".toList ++ NL :: "1,2,3".toList

/-- A file system for the handler.  The root `/srv/data` holds the day directory `20220717`
with the payments file of the tests, the day directory `20220718` with a payments file whose
second row has fewer columns than the first and one whose rows have three columns, and the
directory `misc` with a table under another name.  Outside of the root, `/srv` holds, next
to `data`, the files `235959.payments` and `secret.csv`.  Every other path is absent. -/
def handlerFileSystem : FileSystem where
  ReadDir := fun path =>
    if path = "/srv".toList then
      ([{ Name := "235959.payments".toList, IsDir := false },
        { Name := "data".toList, IsDir := true },
        { Name := "secret.csv".toList, IsDir := false }], none)
    else if path = "/srv/data".toList then
      ([{ Name := "20220717".toList, IsDir := true }, { Name := "20220718".toList, IsDir := true },
        { Name := "misc".toList, IsDir := true }], none)
    else if path = "/srv/data/20220717".toList then
      ([{ Name := "090000.payments".toList, IsDir := false }], none)
    else if path = "/srv/data/20220718".toList then
      ([{ Name := "010101.payments".toList, IsDir := false },
        { Name := "020202.payments".toList, IsDir := false }], none)
    else if path = "/srv/data/misc".toList then
      ([{ Name := "table.csv".toList, IsDir := false }], none)
    else ([], some OsError.ErrNotExist)
  ReadFile := fun path =>
    if path = "/srv/data/20220717/090000.payments".toList then (twoRowCsv, none)
    else if path = "/srv/data/20220718/010101.payments".toList then (raggedCsv, none)
    else if path = "/srv/data/20220718/020202.payments".toList then (shortRowsCsv, none)
    else if path = "/srv/data/misc/table.csv".toList then (twoRowCsv, none)
    else if path = "/srv/235959.payments".toList then (twoRowCsv, none)
    else if path = "/srv/secret.csv".toList then (twoRowCsv, none)
    else ([], some OsError.ErrNotExist)

/-- The service over the root `/srv/data` of `handlerFileSystem`. -/
def handlerService : PaymentsService := { BaseDir := "/srv/data".toList }

/-- The handler over the root `/srv/data` of `handlerFileSystem`. -/
def sampleHandler : Handler := { paymentsService := handlerService }

/-- A file system whose root `/data` holds a regular file named like a day and a day
directory. -/
def fileNamedLikeDay : FileSystem where
  ReadDir := fun path =>
    if path = "/data".toList then
      ([{ Name := "20220717".toList, IsDir := false },
        { Name := "20220718".toList, IsDir := true }], none)
    else ([], some OsError.ErrNotExist)
  ReadFile := fun _ => ([], some OsError.ErrNotExist)

/-- The decimal digits of an integer. -/
def intDigits (n : Int) : Str :=
  if n < 0 then '-' :: Nat.toDigits 10 n.natAbs else Nat.toDigits 10 n.natAbs

/-- A JSON string for a text without characters that need escaping. -/
def jsonQuote (s : Str) : Str := dquote :: s ++ [dquote]

/-- A JSON array of encoded items; `null` for the nil slice. -/
def jsonArray : Slice Str → Str
  | none => "null".toList
  | some items => '[' :: stringsJoin items [comma] ++ [']']

/-- A JSON object for a payment, the comment left out when empty. -/
def jsonPayment (p : Payment) : Str :=
  [Char.ofNat 123] ++ jsonQuote "asOf".toList ++ ':' :: intDigits p.AsOf
    ++ comma :: jsonQuote "sequence".toList ++ ':' :: intDigits p.Sequence
    ++ comma :: jsonQuote "amount".toList ++ ':' :: intDigits p.Amount
    ++ (if p.Comment = [] then []
        else comma :: jsonQuote "comment".toList ++ ':' :: jsonQuote p.Comment)
    ++ [Char.ofNat 125]

/-- An encoder for the samples: it never fails and writes names and comments as they are,
which is what `json.Marshal` does when no character needs escaping. -/
def sampleEncoder : JsonEncoder where
  MarshalStrings := fun names => (jsonArray (names.map (fun l => l.map jsonQuote)), none)
  MarshalPayments := fun payments => (jsonArray (payments.map (fun l => l.map jsonPayment)), none)

/-! ## Path containment in the words of the claims -/

/-- A path element as `parsePath` passes it on: not empty, without a separator. -/
def isPathElement (name : Str) : Prop := name ≠ [] ∧ slash ∉ name

/-- What the loop of `filepath.Clean` does with one more path element that is neither empty
nor `..`, the element being the last of the path: a `.` changes nothing, any other name is
added to the buffer after a separator where one is needed. -/
def cleanPush (rooted : Bool) (name : Str) (outRev : Str) : Str :=
  if name = ['.'] then outRev
  else name.reverse
    ++ (if (rooted = true ∧ outRev.length ≠ 1) ∨ ((!rooted) = true ∧ outRev.length ≠ 0)
        then slash :: outRev else outRev)

/-- The name of a file or directory in a clean path: not empty, without a separator, and
neither `.` nor `..`. -/
def isOrdinaryName (name : Str) : Prop :=
  name ≠ [] ∧ slash ∉ name ∧ name ≠ ['.'] ∧ name ≠ ['.', '.']

/-- A clean path that names the directory `dir` itself or a location under it: `dir`
followed by a separator and one or more ordinary names; under the root `/` and under the
current directory `.` the names follow directly. -/
def atOrBelow (dir path : Str) : Prop :=
  path = dir
  ∨ ∃ names : List Str, names ≠ [] ∧ (∀ n ∈ names, isOrdinaryName n)
      ∧ (path = dir ++ slash :: stringsJoin names [slash]
         ∨ (dir = [slash] ∧ path = slash :: stringsJoin names [slash])
         ∨ (dir = ['.'] ∧ path = stringsJoin names [slash]))

/-! ## The naming conventions in the words of the specification -/

/-- The number a string of decimal digits denotes. -/
def decimalValue (s : Str) : Nat :=
  s.foldl (fun n c => n * 10 + digitVal c) 0

/-- The number of days of a month of the Gregorian calendar, leap years included. -/
def daysInMonth (year month : Nat) : Nat :=
  if month = 2 then
    if (year % 4 = 0 ∧ year % 100 ≠ 0) ∨ year % 400 = 0 then 29 else 28
  else if month = 4 ∨ month = 6 ∨ month = 9 ∨ month = 11 then 30
  else 31

/-- A day name in the words of the specification: exactly eight characters, all decimal
digits, read as `YYYYMMDD` with the month in `1..12` and the day in `1..` the number of
days of that month in that year. -/
def isDayName (s : Str) : Prop :=
  s.length = 8 ∧ (∀ c ∈ s, isDigitChar c = true)
  ∧ 1 ≤ decimalValue ((s.drop 4).take 2) ∧ decimalValue ((s.drop 4).take 2) ≤ 12
  ∧ 1 ≤ decimalValue (s.drop 6)
  ∧ decimalValue (s.drop 6)
      ≤ daysInMonth (decimalValue (s.take 4)) (decimalValue ((s.drop 4).take 2))

/-! ## Theorems -/

theorem stringsCut_none_of_count (sep : Char) (s : Str) (h : stringsCount sep s = 0) :
    stringsCut sep s = none := by
  induction s with
  | nil => rfl
  | cons c cs ih =>
    by_cases hc : c = sep
    · simp [stringsCount, hc] at h
    · simp [stringsCount, hc] at h
      simp [stringsCut, hc, ih h]

theorem genSplit_cons_of_ne (sep c : Char) (hc : c ≠ sep) (k : Nat) (cs : Str) :
    genSplit sep k (c :: cs) = (genSplit sep k cs).modifyHead (List.cons c) := by
  cases k with
  | zero => simp [genSplit]
  | succ k =>
    simp only [genSplit, stringsCut, hc, if_false]
    cases stringsCut sep cs with
    | none => simp
    | some ab => simp

/-- The counted loop of `strings.Split` computes the pieces between the separators. -/
theorem stringsSplit_eq_splitOn (s : Str) (sep : Char) :
    stringsSplit s sep = List.splitOn sep s := by
  unfold stringsSplit
  induction s with
  | nil => simp [stringsCount, genSplit, List.splitOn, List.splitOnP_nil]
  | cons c cs ih =>
    by_cases hc : c = sep
    · simp only [stringsCount, hc, if_true, genSplit, stringsCut]
      rw [ih]
      simp [List.splitOn, List.splitOnP_cons]
    · have hcount : stringsCount sep (c :: cs) = stringsCount sep cs := by
        simp [stringsCount, hc]
      rw [hcount, genSplit_cons_of_ne sep c hc, ih]
      simp [List.splitOn, List.splitOnP_cons, hc]

theorem parsePathLoop_eq (segs : List Str) (acc : List Str) :
    parsePathLoop segs (if acc = [] then none else some acc)
      = (if acc ++ segs.filter (fun s => decide (s ≠ [])) = [] then none
         else some (acc ++ segs.filter (fun s => decide (s ≠ [])))) := by
  induction segs generalizing acc with
  | nil => simp [parsePathLoop]
  | cons s rest ih =>
    by_cases hs : s = []
    · simp [parsePathLoop, hs, ih]
    · have key : sliceAppend (if acc = [] then none else some acc) s
          = (if acc ++ [s] = [] then none else some (acc ++ [s])) := by
        by_cases ha : acc = []
        · simp [ha, sliceAppend]
        · simp [ha, sliceAppend]
      simp only [parsePathLoop, hs, if_false, key]
      rw [ih]
      simp [hs]

/-- The loop and the switch of `parsePath` compute the classification of the segments. -/
theorem parsePath_eq_classify (p : Str) :
    parsePath p = classifySegments (pathSegments p) := by
  have h := parsePathLoop_eq (stringsSplit p slash) []
  simp only [if_true, List.nil_append] at h
  unfold parsePath pathSegments
  rw [← stringsSplit_eq_splitOn]
  simp only [h]
  rcases hseg : (stringsSplit p slash).filter (fun s => decide (s ≠ [])) with
    _ | ⟨a, _ | ⟨b, _ | ⟨c, rest⟩⟩⟩
  · simp [sliceLen, classifySegments]
  · simp [sliceLen, classifySegments]
  · simp [sliceLen, classifySegments]
  · simp [sliceLen, classifySegments]

theorem splitOn_append_sep (sep : Char) (p q : Str) :
    List.splitOn sep (p ++ sep :: q) = List.splitOn sep p ++ List.splitOn sep q := by
  induction p with
  | nil => simp [List.splitOn, List.splitOnP_cons, List.splitOnP_nil]
  | cons c cs ih =>
    have hne : List.splitOn sep cs ≠ [] := by
      simpa [List.splitOn] using List.splitOnP_ne_nil (fun x => x == sep) cs
    by_cases hc : c = sep
    · have := ih
      simp only [List.splitOn] at this ⊢
      simp [List.splitOnP_cons, hc, this]
    · have := ih
      simp only [List.splitOn] at this hne ⊢
      simp only [List.cons_append, List.splitOnP_cons, beq_iff_eq, hc, if_false, this,
        Bool.false_eq_true]
      cases hsp : List.splitOnP (fun x => x == sep) cs with
      | nil => exact absurd hsp hne
      | cons a rest => simp

theorem pathSegments_nil : pathSegments [] = [] := by
  simp [pathSegments, List.splitOn, List.splitOnP_nil]

theorem pathSegments_append_slash (p q : Str) :
    pathSegments (p ++ slash :: q) = pathSegments p ++ pathSegments q := by
  simp [pathSegments, splitOn_append_sep]

/-- Claim C1: `parsePath` is decided by the list of non-empty pieces of the path alone: no
piece gives the root route without params, one piece the directory route with that piece,
two pieces the payment route with both in path order, three or more the error route
without params; the five sample paths of the specification are classified as it says. -/
theorem parsePath_classification :
    (∀ p : Str, parsePath p = classifySegments (pathSegments p))
    ∧ parsePath "".toList = (PathType.PATH_ROOT, none)
    ∧ parsePath "/".toList = (PathType.PATH_ROOT, none)
    ∧ parsePath "/20220717/".toList = (PathType.PATH_DIR, some ["20220717".toList])
    ∧ parsePath "/20220717/090000.payments".toList
        = (PathType.PATH_PAYMENT, some ["20220717".toList, "090000.payments".toList])
    ∧ parsePath "/a/b/c".toList = (PathType.PATH_ERROR, none) := by
  refine ⟨parsePath_eq_classify, ?_, ?_, ?_, ?_, ?_⟩ <;> decide

/-- Claim C2: a leading slash, a trailing slash and a doubled slash do not change what
`parsePath` returns, neither the route nor the params. -/
theorem parsePath_slash_insensitive (p q : Str) :
    parsePath (slash :: p) = parsePath p
    ∧ parsePath (p ++ [slash]) = parsePath p
    ∧ parsePath (p ++ slash :: q) = parsePath (p ++ slash :: slash :: q) := by
  have h1 : ∀ r : Str, pathSegments (slash :: r) = pathSegments r := by
    intro r
    have := pathSegments_append_slash [] r
    simpa [pathSegments_nil] using this
  have h2 : pathSegments (p ++ [slash]) = pathSegments p := by
    have := pathSegments_append_slash p []
    simpa [pathSegments_nil] using this
  have h3 : pathSegments (p ++ slash :: slash :: q) = pathSegments (p ++ slash :: q) := by
    rw [pathSegments_append_slash, pathSegments_append_slash, h1]
  simp only [parsePath_eq_classify, h1, h2, h3, and_self]

/-! ### The validators -/

theorem digitVal_le_of_isDigitChar (c : Char) (h : isDigitChar c = true) : digitVal c ≤ 9 := by
  simp [isDigitChar] at h
  unfold digitVal
  omega

theorem leadingInt_of_digits (s : Str) (x : Nat) (hd : ∀ c ∈ s, isDigitChar c = true)
    (hb : (x + 1) * 10 ^ s.length ≤ 2 ^ 63 / 10) :
    leadingInt s x = some (s.foldl (fun n c => n * 10 + digitVal c) x, []) := by
  induction s generalizing x with
  | nil => simp [leadingInt]
  | cons c rest ih =>
    have hc : isDigitChar c = true := hd c (by simp)
    have hv := digitVal_le_of_isDigitChar c hc
    have hpow : 1 ≤ 10 ^ rest.length := Nat.one_le_pow _ _ (by norm_num)
    have hb1 : (x + 1) * 10 * 10 ^ rest.length ≤ 2 ^ 63 / 10 := by
      have : (x + 1) * 10 ^ (c :: rest).length = (x + 1) * 10 * 10 ^ rest.length := by
        simp [pow_succ]; ring
      rw [← this]; exact hb
    have hb2 : (x + 1) * 10 ≤ 2 ^ 63 / 10 :=
      le_trans (Nat.le_mul_of_pos_right _ hpow) hb1
    have hb3 : (x * 10 + digitVal c + 1) * 10 ^ rest.length ≤ 2 ^ 63 / 10 :=
      le_trans (Nat.mul_le_mul_right _ (by omega)) hb1
    have h1 : ¬ (x > 2 ^ 63 / 10) := by omega
    have h2 : ¬ (x * 10 + digitVal c > 2 ^ 63) := by
      have : (2:Nat) ^ 63 / 10 ≤ 2 ^ 63 := Nat.div_le_self _ _
      omega
    simp only [leadingInt, hc, Bool.not_true, Bool.false_eq_true, if_false, h1, h2,
      List.foldl_cons]
    exact ih _ (fun c hc => hd c (by simp [hc])) hb3

theorem leadingInt_rem (s : Str) (x q : Nat) (rem : Str)
    (h : leadingInt s x = some (q, rem)) (hrem : rem = []) :
    ∀ c ∈ s, isDigitChar c = true := by
  induction s generalizing x with
  | nil => simp
  | cons c rest ih =>
    by_cases hc : isDigitChar c = true
    · simp only [leadingInt, hc, Bool.not_true, Bool.false_eq_true, if_false] at h
      split at h
      · simp at h
      · split at h
        · simp at h
        · intro d hd
          rcases List.mem_cons.mp hd with rfl | hd
          · exact hc
          · exact ih _ h d hd
    · simp [leadingInt, hc] at h
      rw [hrem] at h
      simp at h

theorem foldl_digits_lt (s : Str) (x : Nat) (hd : ∀ c ∈ s, isDigitChar c = true) :
    s.foldl (fun n c => n * 10 + digitVal c) x < (x + 1) * 10 ^ s.length := by
  induction s generalizing x with
  | nil => simp
  | cons c rest ih =>
    have hv := digitVal_le_of_isDigitChar c (hd c (by simp))
    have h := ih (x * 10 + digitVal c) (fun c hc => hd c (by simp [hc]))
    have h2 : (x * 10 + digitVal c + 1) * 10 ^ rest.length ≤ (x + 1) * 10 * 10 ^ rest.length :=
      Nat.mul_le_mul_right _ (by omega)
    have h3 : (x + 1) * 10 ^ (c :: rest).length = (x + 1) * 10 * 10 ^ rest.length := by
      simp [pow_succ]; ring
    rw [h3]
    exact lt_of_lt_of_le h h2

theorem not_sign_of_isDigitChar (c : Char) (h : isDigitChar c = true) :
    c ≠ '-' ∧ c ≠ '+' := by
  constructor
  · rintro rfl
    simp [isDigitChar] at h
  · rintro rfl
    simp [isDigitChar] at h

/-- On a text of at most 17 bytes that starts with a digit, `atoi` of package `time`
succeeds exactly when every byte is a digit, and then gives the decimal value. -/
theorem timeAtoi_of_digit_head (a : Char) (rest : Str) (ha : isDigitChar a = true)
    (hlen : (a :: rest).length ≤ 17) :
    timeAtoi (a :: rest)
      = if (∀ c ∈ a :: rest, isDigitChar c = true)
        then some ((decimalValue (a :: rest) : Nat) : Int) else none := by
  obtain ⟨hm, hp⟩ := not_sign_of_isDigitChar a ha
  have hpow : 10 ^ (a :: rest).length ≤ 10 ^ 17 := Nat.pow_le_pow_right (by norm_num) hlen
  by_cases hall : ∀ c ∈ a :: rest, isDigitChar c = true
  · have hb : (0 + 1) * 10 ^ (a :: rest).length ≤ 2 ^ 63 / 10 := by
      have : (10:Nat) ^ 17 ≤ 2 ^ 63 / 10 := by norm_num
      omega
    have hl := leadingInt_of_digits (a :: rest) 0 hall hb
    have hlt := foldl_digits_lt (a :: rest) 0 hall
    have hlt2 : List.foldl (fun n c => n * 10 + digitVal c) 0 (a :: rest) < 2 ^ 63 := by
      have : (10:Nat) ^ 17 < 2 ^ 63 := by norm_num
      omega
    simp only [timeAtoi, List.head?_cons, Option.some.injEq, hm, hp, decide_False, or_self,
      if_false, hl, if_pos hall, decimalValue]
    have hlt3 := hlt2
    simp at hlt3
    simp [hlt3]
  · rw [if_neg hall]
    simp only [timeAtoi, List.head?_cons, Option.some.injEq, hm, hp, decide_False, or_self,
      if_false]
    cases hl : leadingInt (a :: rest) 0 with
    | none => rfl
    | some qr =>
      obtain ⟨q, rem⟩ := qr
      by_cases hrem : rem = []
      · exact absurd (leadingInt_rem _ _ _ _ hl hrem) hall
      · simp [hrem]

theorem getnum_fixed_eq (v : Str) (n : Int) (rest : Str) :
    getnum v true = some (n, rest)
      ↔ ∃ a b, v = a :: b :: rest ∧ isDigitChar a = true ∧ isDigitChar b = true
          ∧ n = (digitVal a : Int) * 10 + (digitVal b : Int) := by
  constructor
  · intro h
    rcases v with _ | ⟨a, _ | ⟨b, tl⟩⟩
    · simp [getnum] at h
    · by_cases ha : isDigitChar a = true <;> simp [getnum, ha] at h
    · by_cases ha : isDigitChar a = true
      · by_cases hb : isDigitChar b = true
        · simp [getnum, ha, hb] at h
          exact ⟨a, b, by simp [h.2], ha, hb, h.1.symm⟩
        · simp [getnum, ha, hb] at h
      · simp [getnum, ha] at h
  · rintro ⟨a, b, rfl, ha, hb, rfl⟩
    simp [getnum, ha, hb]

theorem nextStdChunk_dateLayout :
    nextStdChunk dateLayout = ([], some Std.stdLongYear, ['0', '1', '0', '2']) := by decide

theorem nextStdChunk_0102 :
    nextStdChunk ['0', '1', '0', '2'] = ([], some Std.stdZeroMonth, ['0', '2']) := by decide

theorem nextStdChunk_02 :
    nextStdChunk ['0', '2'] = ([], some Std.stdZeroDay, []) := by decide

theorem nextStdChunk_nil : nextStdChunk [] = ([], none, []) := by decide

/-- The loop of `Parse` on the layout `20060102`: year, month, day, then the end. -/
theorem parseLoop_dateLayout (s : Str) (f : Fields) :
    parseLoop (dateLayout.length + 1) dateLayout s f =
      match parseElem Std.stdLongYear ['0', '1', '0', '2'] s f with
      | Except.error e => Except.error e
      | Except.ok (f1, v1) =>
        match parseElem Std.stdZeroMonth ['0', '2'] v1 f1 with
        | Except.error e => Except.error e
        | Except.ok (f2, v2) =>
          match parseElem Std.stdZeroDay [] v2 f2 with
          | Except.error e => Except.error e
          | Except.ok (f3, v3) =>
            if v3.length ≠ 0 then Except.error (ParseError.extraText v3) else Except.ok f3 := by
  have hlen : dateLayout.length + 1 = 9 := by decide
  rw [hlen]
  simp only [parseLoop, nextStdChunk_dateLayout, skip]
  cases parseElem Std.stdLongYear ['0', '1', '0', '2'] s f with
  | error e => rfl
  | ok r1 =>
    obtain ⟨f1, v1⟩ := r1
    simp only [nextStdChunk_0102, skip]
    cases parseElem Std.stdZeroMonth ['0', '2'] v1 f1 with
    | error e => rfl
    | ok r2 =>
      obtain ⟨f2, v2⟩ := r2
      simp only [nextStdChunk_02, skip]
      cases parseElem Std.stdZeroDay [] v2 f2 with
      | error e => rfl
      | ok r3 =>
        obtain ⟨f3, v3⟩ := r3
        simp only [nextStdChunk_nil, skip]

theorem parseElem_longYear_ok (l s : Str) (f f1 : Fields) (v1 : Str) :
    parseElem Std.stdLongYear l s f = Except.ok (f1, v1)
      ↔ ∃ a b c d, s = a :: b :: c :: d :: v1
          ∧ (∀ x ∈ [a, b, c, d], isDigitChar x = true)
          ∧ f1 = { f with year := ((decimalValue [a, b, c, d] : Nat) : Int) } := by
  constructor
  · intro h
    rcases s with _ | ⟨a, _ | ⟨b, _ | ⟨c, _ | ⟨d, v⟩⟩⟩⟩
    · simp [parseElem] at h
    · simp [parseElem] at h
    · simp [parseElem] at h
    · simp [parseElem] at h
    · by_cases ha : isDigitChar a = true
      · have hat := timeAtoi_of_digit_head a [b, c, d] ha (by simp)
        simp only [parseElem, List.length_cons, isDigit, List.get?_cons_zero, ha,
          Bool.not_true, List.take_succ_cons, List.take_zero, hat, List.drop_succ_cons,
          List.drop_zero] at h
        have hlen : ¬ (v.length + 1 + 1 + 1 + 1 < 4) := by omega
        by_cases hall : ∀ x ∈ [a, b, c, d], isDigitChar x = true
        · rw [if_pos hall] at h
          simp only [hlen, or_false, Bool.false_eq_true, if_false, Except.ok.injEq,
            Prod.mk.injEq] at h
          exact ⟨a, b, c, d, by rw [h.2], hall, h.1.symm⟩
        · rw [if_neg hall] at h
          simp at h
      · simp [parseElem, isDigit, ha] at h
  · rintro ⟨a, b, c, d, rfl, hall, rfl⟩
    have ha : isDigitChar a = true := hall a (by simp)
    have hat := timeAtoi_of_digit_head a [b, c, d] ha (by simp)
    simp only [parseElem, List.length_cons, isDigit, List.get?_cons_zero, ha,
      Bool.not_true, List.take_succ_cons, List.take_zero, hat, List.drop_succ_cons,
      List.drop_zero]
    rw [if_pos hall]
    have hlen : ¬ (v1.length + 1 + 1 + 1 + 1 < 4) := by omega
    simp [hlen]

theorem parseElem_zeroMonth_ok (l s : Str) (f f1 : Fields) (v1 : Str) :
    parseElem Std.stdZeroMonth l s f = Except.ok (f1, v1)
      ↔ ∃ a b, s = a :: b :: v1 ∧ isDigitChar a = true ∧ isDigitChar b = true
          ∧ 1 ≤ digitVal a * 10 + digitVal b ∧ digitVal a * 10 + digitVal b ≤ 12
          ∧ f1 = { f with month := ((digitVal a * 10 + digitVal b : Nat) : Int) } := by
  constructor
  · intro h
    simp only [parseElem, decide_True] at h
    cases hg : getnum s true with
    | none => simp [hg] at h
    | some r =>
      obtain ⟨n, rest⟩ := r
      obtain ⟨a, b, hs, ha, hb, hn⟩ := (getnum_fixed_eq s n rest).mp hg
      simp only [hg] at h
      split at h
      · simp at h
      · rename_i hrange
        simp at h
        refine ⟨a, b, by rw [hs, h.2], ha, hb, ?_, ?_, ?_⟩
        · omega
        · omega
        · rw [← h.1, hn]; simp
  · rintro ⟨a, b, rfl, ha, hb, h1, h2, rfl⟩
    have hg : getnum (a :: b :: v1) true
        = some ((digitVal a : Int) * 10 + (digitVal b : Int), v1) :=
      (getnum_fixed_eq _ _ _).mpr ⟨a, b, rfl, ha, hb, rfl⟩
    simp only [parseElem, decide_True, hg]
    rw [if_neg (by omega)]
    simp

theorem parseElem_zeroDay_ok (l s : Str) (f f1 : Fields) (v1 : Str) :
    parseElem Std.stdZeroDay l s f = Except.ok (f1, v1)
      ↔ ∃ a b, s = a :: b :: v1 ∧ isDigitChar a = true ∧ isDigitChar b = true
          ∧ f1 = { f with day := ((digitVal a * 10 + digitVal b : Nat) : Int) } := by
  constructor
  · intro h
    simp only [parseElem, decide_True] at h
    cases hg : getnum s true with
    | none => simp [hg] at h
    | some r =>
      obtain ⟨n, rest⟩ := r
      obtain ⟨a, b, hs, ha, hb, hn⟩ := (getnum_fixed_eq s n rest).mp hg
      simp only [hg] at h
      simp at h
      refine ⟨a, b, by rw [hs, h.2], ha, hb, ?_⟩
      rw [← h.1, hn]; simp
  · rintro ⟨a, b, rfl, ha, hb, rfl⟩
    have hg : getnum (a :: b :: v1) true
        = some ((digitVal a : Int) * 10 + (digitVal b : Int), v1) :=
      (getnum_fixed_eq _ _ _).mpr ⟨a, b, rfl, ha, hb, rfl⟩
    simp only [parseElem, decide_True, hg]
    simp

theorem isLeap_natCast (y : Nat) :
    isLeap (y : Int) = decide ((y % 4 = 0 ∧ y % 100 ≠ 0) ∨ y % 400 = 0) := by
  have h4 : ((y : Int).tmod 4 = 0) ↔ y % 4 = 0 := by
    rw [Int.tmod_eq_emod (by omega) (by omega)]; omega
  have h100 : ((y : Int).tmod 100 = 0) ↔ y % 100 = 0 := by
    rw [Int.tmod_eq_emod (by omega) (by omega)]; omega
  have h400 : ((y : Int).tmod 400 = 0) ↔ y % 400 = 0 := by
    rw [Int.tmod_eq_emod (by omega) (by omega)]; omega
  unfold isLeap
  simp only [ne_eq, h4, h100, h400]
  by_cases a4 : y % 4 = 0 <;> by_cases a100 : y % 100 = 0 <;> by_cases a400 : y % 400 = 0 <;>
    simp [a4, a100, a400] <;> omega

/-- The table of `time.go` gives the lengths of the months of the Gregorian calendar. -/
theorem daysIn_eq_daysInMonth (y m : Nat) (h1 : 1 ≤ m) (h12 : m ≤ 12) :
    daysIn (m : Int) (y : Int) = (daysInMonth y m : Int) := by
  unfold daysIn daysInMonth
  rw [isLeap_natCast]
  interval_cases m <;> simp [daysBefore]

/-- What `validateDirName` accepts, byte by byte. -/
theorem validateDirName_none_iff (s : Str) :
    validateDirName s = none
      ↔ ∃ y1 y2 y3 y4 m1 m2 d1 d2, s = [y1, y2, y3, y4, m1, m2, d1, d2]
          ∧ (∀ x ∈ [y1, y2, y3, y4, m1, m2, d1, d2], isDigitChar x = true)
          ∧ 1 ≤ digitVal m1 * 10 + digitVal m2 ∧ digitVal m1 * 10 + digitVal m2 ≤ 12
          ∧ 1 ≤ digitVal d1 * 10 + digitVal d2
          ∧ digitVal d1 * 10 + digitVal d2
              ≤ daysInMonth (decimalValue [y1, y2, y3, y4]) (digitVal m1 * 10 + digitVal m2) := by
  unfold validateDirName timeParse
  rw [parseLoop_dateLayout]
  constructor
  · intro h
    cases hy : parseElem Std.stdLongYear ['0', '1', '0', '2'] s Fields.init with
    | error e => simp [hy] at h
    | ok r1 =>
      obtain ⟨f1, v1⟩ := r1
      cases hm : parseElem Std.stdZeroMonth ['0', '2'] v1 f1 with
      | error e => simp [hy, hm] at h
      | ok r2 =>
        obtain ⟨f2, v2⟩ := r2
        cases hd : parseElem Std.stdZeroDay [] v2 f2 with
        | error e => simp [hy, hm, hd] at h
        | ok r3 =>
          obtain ⟨f3, v3⟩ := r3
          obtain ⟨y1, y2, y3, y4, hs, hyd, hf1⟩ := (parseElem_longYear_ok _ _ _ _ _).mp hy
          obtain ⟨m1, m2, hv1, hm1, hm2, hlo, hhi, hf2⟩ :=
            (parseElem_zeroMonth_ok _ _ _ _ _).mp hm
          obtain ⟨d1, d2, hv2, hd1, hd2, hf3⟩ := (parseElem_zeroDay_ok _ _ _ _ _).mp hd
          simp only [hy, hm, hd] at h
          by_cases hv3 : v3 = []
          · subst hv3
            have hdi := daysIn_eq_daysInMonth (decimalValue [y1, y2, y3, y4])
              (digitVal m1 * 10 + digitVal m2) hlo hhi
            refine ⟨y1, y2, y3, y4, m1, m2, d1, d2, by rw [hs, hv1, hv2], ?_, hlo, hhi, ?_⟩
            · intro x hx
              simp only [List.mem_cons, List.mem_singleton, List.not_mem_nil, or_false] at hx hyd
              rcases hx with rfl | rfl | rfl | rfl | rfl | rfl | rfl | rfl
              · exact hyd _ (Or.inl rfl)
              · exact hyd _ (Or.inr (Or.inl rfl))
              · exact hyd _ (Or.inr (Or.inr (Or.inl rfl)))
              · exact hyd _ (Or.inr (Or.inr (Or.inr rfl)))
              · exact hm1
              · exact hm2
              · exact hd1
              · exact hd2
            · subst hf3 hf2 hf1
              simp only [List.length_nil, ne_eq, not_true_eq_false, if_false] at h
              have hmn : ¬ (((digitVal m1 * 10 + digitVal m2 : Nat) : Int) < 0) := by omega
              have hdn : ¬ (((digitVal d1 * 10 + digitVal d2 : Nat) : Int) < 0) := by omega
              simp only [hmn, hdn, if_false, hdi] at h
              by_cases hcond : ((digitVal d1 * 10 + digitVal d2 : Nat) : Int) < 1
                  ∨ ((digitVal d1 * 10 + digitVal d2 : Nat) : Int)
                    > ((daysInMonth (decimalValue [y1, y2, y3, y4])
                        (digitVal m1 * 10 + digitVal m2) : Nat) : Int)
              · rw [if_pos hcond] at h
                simp at h
              · omega
          · have : v3.length ≠ 0 := by
              simpa using hv3
            simp [this] at h
  · rintro ⟨y1, y2, y3, y4, m1, m2, d1, d2, rfl, hall, hlo, hhi, hdlo, hdhi⟩
    have hy : parseElem Std.stdLongYear ['0', '1', '0', '2']
        [y1, y2, y3, y4, m1, m2, d1, d2] Fields.init
        = Except.ok ({ Fields.init with year := ((decimalValue [y1, y2, y3, y4] : Nat) : Int) },
            [m1, m2, d1, d2]) :=
      (parseElem_longYear_ok _ _ _ _ _).mpr
        ⟨y1, y2, y3, y4, rfl, fun x hx => hall x (by simp at hx ⊢; tauto), rfl⟩
    have hm := (parseElem_zeroMonth_ok ['0', '2'] [m1, m2, d1, d2]
        { Fields.init with year := ((decimalValue [y1, y2, y3, y4] : Nat) : Int) } _ [d1, d2]).mpr
        ⟨m1, m2, rfl, hall m1 (by simp), hall m2 (by simp), hlo, hhi, rfl⟩
    have hd := (parseElem_zeroDay_ok [] [d1, d2]
        { Fields.init with year := ((decimalValue [y1, y2, y3, y4] : Nat) : Int),
                           month := ((digitVal m1 * 10 + digitVal m2 : Nat) : Int) } _ []).mpr
        ⟨d1, d2, rfl, hall d1 (by simp), hall d2 (by simp), rfl⟩
    have hdi := daysIn_eq_daysInMonth (decimalValue [y1, y2, y3, y4])
      (digitVal m1 * 10 + digitVal m2) hlo hhi
    simp only [hy, hm, hd, List.length_nil, ne_eq, not_true_eq_false, if_false]
    have hmn : ¬ (((digitVal m1 * 10 + digitVal m2 : Nat) : Int) < 0) := by omega
    have hdn : ¬ (((digitVal d1 * 10 + digitVal d2 : Nat) : Int) < 0) := by omega
    simp only [hmn, hdn, if_false, hdi]
    rw [if_neg (by omega)]

theorem isDayName_iff (s : Str) :
    isDayName s
      ↔ ∃ y1 y2 y3 y4 m1 m2 d1 d2, s = [y1, y2, y3, y4, m1, m2, d1, d2]
          ∧ (∀ x ∈ [y1, y2, y3, y4, m1, m2, d1, d2], isDigitChar x = true)
          ∧ 1 ≤ digitVal m1 * 10 + digitVal m2 ∧ digitVal m1 * 10 + digitVal m2 ≤ 12
          ∧ 1 ≤ digitVal d1 * 10 + digitVal d2
          ∧ digitVal d1 * 10 + digitVal d2
              ≤ daysInMonth (decimalValue [y1, y2, y3, y4]) (digitVal m1 * 10 + digitVal m2) := by
  constructor
  · rintro ⟨hlen, hall, h1, h2, h3, h4⟩
    rcases s with _ | ⟨y1, _ | ⟨y2, _ | ⟨y3, _ | ⟨y4, _ | ⟨m1, _ | ⟨m2, _ | ⟨d1, _ | ⟨d2, _ | ⟨e, r⟩⟩⟩⟩⟩⟩⟩⟩⟩ <;>
      simp at hlen
    refine ⟨y1, y2, y3, y4, m1, m2, d1, d2, rfl, hall, ?_, ?_, ?_, ?_⟩
    · simpa [decimalValue] using h1
    · simpa [decimalValue] using h2
    · simpa [decimalValue] using h3
    · simpa [decimalValue] using h4
  · rintro ⟨y1, y2, y3, y4, m1, m2, d1, d2, rfl, hall, h1, h2, h3, h4⟩
    refine ⟨rfl, hall, ?_, ?_, ?_, ?_⟩
    · simpa [decimalValue] using h1
    · simpa [decimalValue] using h2
    · simpa [decimalValue] using h3
    · simpa [decimalValue] using h4

/-- Claim C6: `validateDirName` returns no error exactly for the strings of eight decimal
digits `YYYYMMDD` whose month is in `1..12` and whose day is a day of that month in that year
(leap years included); the sample names of the specification and of the tests are accepted
and rejected as stated. -/
theorem validateDirName_accepts_iff :
    (∀ s : Str, validateDirName s = none ↔ isDayName s)
    ∧ validateDirName "20220717".toList = none
    ∧ validateDirName "20120101".toList = none
    ∧ (validateDirName "xyz".toList).isSome = true
    ∧ (validateDirName "2022_07_17".toList).isSome = true
    ∧ (validateDirName "2022".toList).isSome = true
    ∧ (validateDirName "202207".toList).isSome = true
    ∧ (validateDirName "202207177".toList).isSome = true
    ∧ (validateDirName "20221332".toList).isSome = true
    ∧ (validateDirName "2022717".toList).isSome = true := by
  refine ⟨fun s => ?_, ?_, ?_, ?_, ?_, ?_, ?_, ?_, ?_, ?_⟩
  · rw [validateDirName_none_iff, isDayName_iff]
  all_goals decide

/-! ### The record parser -/

theorem parseRow_five_columns (row : List Str) (h : 5 ≤ row.length) :
    parseRow row = Exec.returns (recordOfRow row) := by
  rcases row with _ | ⟨c0, _ | ⟨c1, _ | ⟨c2, _ | ⟨c3, _ | ⟨c4, r⟩⟩⟩⟩⟩ <;> simp at h
  simp only [parseRow, recordOfRow, List.get?_cons_zero, List.get?_cons_succ]
  cases Atoi (c0 ++ c1) <;> cases Atoi c2 <;> cases Atoi c3 <;> rfl

theorem parsePaymentsLoop_five_columns (rows : List (List Str)) (i : Nat) (acc : List Payment)
    (h5 : ∀ row ∈ rows, 5 ≤ row.length) :
    parsePaymentsLoop (i + 1) rows (some acc)
      = Exec.returns (some (acc ++ rows.filterMap recordOfRow)) := by
  induction rows generalizing i acc with
  | nil => simp [parsePaymentsLoop]
  | cons row rest ih =>
    have hrow := parseRow_five_columns row (h5 row (by simp))
    have hrest : ∀ r ∈ rest, 5 ≤ r.length := fun r hr => h5 r (by simp [hr])
    simp only [parsePaymentsLoop, Nat.add_one_ne_zero, if_false, hrow]
    cases hrec : recordOfRow row with
    | none =>
      simp only [List.filterMap_cons, hrec]
      exact ih i.succ acc hrest
    | some p =>
      simp only [List.filterMap_cons, hrec, sliceAppend]
      rw [ih i.succ (acc ++ [p]) hrest]
      simp

/-- The loop of `parsePayments` on a table of five-column rows. -/
theorem parsePaymentsLoop_table (table : List (List Str))
    (h5 : ∀ row ∈ table, 5 ≤ row.length) :
    parsePaymentsLoop 0 table (some []) = Exec.returns (some (expectedPayments table)) := by
  cases table with
  | nil => simp [parsePaymentsLoop, expectedPayments]
  | cons hdr rest =>
    simp only [parsePaymentsLoop, if_true, expectedPayments, List.drop_succ_cons, List.drop_zero]
    have := parsePaymentsLoop_five_columns rest 0 [] (fun r hr => h5 r (by simp [hr]))
    simpa using this

/-- Claim C3: on a table of five-column rows `parsePayments` succeeds and returns, in row
order, the record of every row after the header whose three integer parses succeed; a row
in which a parse fails contributes nothing and does not stop the parse. -/
theorem parsePayments_five_columns (input : Str) (records : Slice (List Str))
    (hread : ReadAll input = (records, none))
    (h5 : ∀ row ∈ records.getD [], row.length = 5) :
    parsePayments input
      = Exec.returns (some (expectedPayments (records.getD [])), none) := by
  unfold parsePayments
  rw [hread]
  simp only [parsePaymentsLoop_table _ (fun row hrow => le_of_eq (h5 row hrow).symm)]

set_option maxRecDepth 100000 in
theorem parsePayments_five_columns_witness :
    ReadAll sampleCsv = (some sampleTable, none)
    ∧ parsePayments sampleCsv
        = Exec.returns (some (expectedPayments ((some sampleTable).getD [])), none)
    ∧ expectedPayments sampleTable
        = [{ AsOf := 20220717090000, Sequence := 211, Amount := 500,
             Comment := "payment2".toList },
           { AsOf := 20220717090001, Sequence := 213, Amount := -7, Comment := [] }] :=
  ⟨by decide, parsePayments_five_columns sampleCsv (some sampleTable) (by decide) (by decide),
   by decide⟩

theorem parseFields_record_ne_nil (fuel : Nat) :
    ∀ (line : Str) (lines fields : List Str) (q : Option Str) (dst rest : List Str),
      parseFields fuel line lines fields q = Lexed.record dst rest → dst ≠ [] := by
  induction fuel with
  | zero =>
    intro line lines fields q dst rest h
    simp [parseFields] at h
  | succ fuel ih =>
    intro line lines fields q dst rest h
    cases q with
    | none =>
      simp only [parseFields] at h
      split at h
      · split at h
        · split at h
          · simp at h
          · exact ih _ _ _ _ _ _ h
        · split at h
          · simp at h
          · simp only [Lexed.record.injEq] at h
            rw [← h.1]; simp
      · exact ih _ _ _ _ _ _ h
    | some buf =>
      simp only [parseFields] at h
      split at h
      · split at h
        · split at h
          · exact ih _ _ _ _ _ _ h
          · split at h
            · exact ih _ _ _ _ _ _ h
            · split at h
              · simp only [Lexed.record.injEq] at h
                rw [← h.1]; simp
              · simp at h
        · simp only [Lexed.record.injEq] at h
          rw [← h.1]; simp
      · split at h
        · split at h
          · exact ih _ _ _ _ _ _ h
          · exact ih _ _ _ _ _ _ h
        · simp at h

theorem foldl_sliceAppend_some {α : Type} (new : List α) (l : List α) :
    new.foldl sliceAppend (some l) = some (l ++ new) := by
  induction new generalizing l with
  | nil => simp
  | cons a rest ih => simp [sliceAppend, ih]

theorem readAllLoop_succ (fuel : Nat) (fieldsPerRecord : Int) (lines : List Str)
    (records : Slice (List Str)) :
    readAllLoop (fuel + 1) fieldsPerRecord lines records =
      match skipEmptyLines lines with
      | [] => (records, none)
      | line :: rest =>
        match parseFields (recordBound line rest) line rest [] none with
        | Lexed.failed e => (none, some e)
        | Lexed.record dst rest1 =>
          if fieldsPerRecord > 0 then
            if (dst.length : Int) ≠ fieldsPerRecord then (none, some CsvError.ErrFieldCount)
            else readAllLoop fuel fieldsPerRecord rest1 (sliceAppend records dst)
          else if fieldsPerRecord = 0 then
            readAllLoop fuel (dst.length : Int) rest1 (sliceAppend records dst)
          else readAllLoop fuel fieldsPerRecord rest1 (sliceAppend records dst) := by
  rfl

/-- The field-count check of the reader: when the records of an input can be read without
the check, reading them with a positive `FieldsPerRecord` gives the same records if each has
that many fields, and `ErrFieldCount` otherwise. -/
theorem readAllLoop_fieldsPerRecord (k : Int) (hk : 0 < k) (fuel : Nat) :
    ∀ (lines : List Str) (recs out : Slice (List Str)),
      readAllLoop fuel (-1) lines recs = (out, none) →
      ∃ new : List (List Str), out = new.foldl sliceAppend recs
        ∧ ∀ recs2 : Slice (List Str),
            readAllLoop fuel k lines recs2
              = if ∀ r ∈ new, (r.length : Int) = k then (new.foldl sliceAppend recs2, none)
                else (none, some CsvError.ErrFieldCount) := by
  induction fuel with
  | zero =>
    intro lines recs out h
    simp [readAllLoop] at h
  | succ fuel ih =>
    intro lines recs out h
    rw [readAllLoop_succ] at h
    cases hskip : skipEmptyLines lines with
    | nil =>
      rw [hskip] at h
      simp only [Prod.mk.injEq, and_true] at h
      refine ⟨[], by simp [h], fun recs2 => ?_⟩
      rw [readAllLoop_succ, hskip]
      simp
    | cons line rest =>
      rw [hskip] at h
      dsimp only at h
      cases hlex : parseFields (recordBound line rest) line rest [] none with
      | failed e =>
        rw [hlex] at h
        simp at h
      | record dst rest1 =>
        rw [hlex] at h
        dsimp only at h
        have hneg : ¬ ((-1 : Int) > 0) := by omega
        have hneg0 : ¬ ((-1 : Int) = 0) := by omega
        rw [if_neg hneg, if_neg hneg0] at h
        obtain ⟨new, hout, hnew⟩ := ih rest1 (sliceAppend recs dst) out h
        refine ⟨dst :: new, by simpa using hout, fun recs2 => ?_⟩
        rw [readAllLoop_succ, hskip]
        dsimp only
        rw [hlex]
        dsimp only
        have hkpos : k > 0 := hk
        rw [if_pos hkpos]
        by_cases hlen : (dst.length : Int) = k
        · simp only [hlen, ne_eq, not_true_eq_false, if_false, hnew, List.mem_cons,
            forall_eq_or_imp, true_and, List.foldl_cons]
        · simp [hlen]

/-- The same input read with and without the field-count check of `csv.NewReader`. -/
theorem ReadAll_of_rows (input : Str) (rows : List (List Str))
    (hlex : csvReadAll (-1) input = (some rows, none)) :
    ReadAll input
      = if ∀ row ∈ rows, row.length = (rows.headD []).length then (some rows, none)
        else (none, some CsvError.ErrFieldCount) := by
  unfold ReadAll csvReadAll at *
  rw [readAllLoop_succ] at hlex ⊢
  generalize hskip : skipEmptyLines (readLines input) = sk at hlex ⊢
  cases sk with
  | nil => simp at hlex
  | cons line rest =>
    dsimp only at hlex ⊢
    generalize hp : parseFields (recordBound line rest) line rest [] none = lexed at hlex ⊢
    cases lexed with
    | failed e => simp at hlex
    | record dst rest1 =>
      have hne := parseFields_record_ne_nil _ _ _ _ _ _ _ hp
      have hpos : (0 : Int) < (dst.length : Int) := by
        have : 0 < dst.length := List.length_pos.mpr hne
        omega
      dsimp only at hlex ⊢
      have hneg : ¬ ((-1 : Int) > 0) := by omega
      have hneg0 : ¬ ((-1 : Int) = 0) := by omega
      rw [if_neg hneg, if_neg hneg0] at hlex
      obtain ⟨new, hout, hnew⟩ :=
        readAllLoop_fieldsPerRecord (dst.length : Int) hpos _ rest1 _ _ hlex
      simp only [sliceAppend, foldl_sliceAppend_some, Option.some.injEq] at hout
      have h0 : ¬ ((0 : Int) > 0) := by omega
      rw [if_neg h0, if_pos rfl, hnew]
      simp only [sliceAppend, foldl_sliceAppend_some]
      subst hout
      simp only [List.singleton_append, List.headD_cons, List.mem_cons, forall_eq_or_imp,
        true_and, Nat.cast_inj]

/-- Claim C4, as amended: when the rows of a CSV input do not all have the number of columns
of its first row, `parsePayments` returns an error (the field-count error of the reader)
and no records. -/
theorem parsePayments_field_count (input : Str) (rows : List (List Str))
    (hlex : csvReadAll (-1) input = (some rows, none))
    (hmis : ∃ row ∈ rows, row.length ≠ (rows.headD []).length) :
    parsePayments input = Exec.returns (none, some CsvError.ErrFieldCount) := by
  have h := ReadAll_of_rows input rows hlex
  have hnot : ¬ ∀ row ∈ rows, row.length = (rows.headD []).length := by
    obtain ⟨row, hrow, hne⟩ := hmis
    exact fun hall => hne (hall row hrow)
  rw [if_neg hnot] at h
  simp [parsePayments, h]

theorem parsePayments_field_count_witness :
    csvReadAll (-1) raggedCsv = (some [["a".toList, "b".toList, "c".toList],
                                       ["d".toList, "e".toList]], none)
    ∧ parsePayments raggedCsv = Exec.returns (none, some CsvError.ErrFieldCount) :=
  ⟨by decide,
   parsePayments_field_count raggedCsv
     [["a".toList, "b".toList, "c".toList], ["d".toList, "e".toList]] (by decide)
     ⟨["d".toList, "e".toList], by decide, by decide⟩⟩

set_option maxRecDepth 100000 in
/-- Claim C4 fails as stated: a file whose only row has three columns is parsed without
error into the empty sequence, and a file whose rows all have six columns is parsed without
error into the record of its data row. -/
theorem parsePayments_wrong_column_count_accepted :
    csvReadAll (-1) threeColumnCsv = (some [["a".toList, "b".toList, "c".toList]], none)
    ∧ parsePayments threeColumnCsv = Exec.returns (some [], none)
    ∧ (∀ row ∈ (csvReadAll (-1) sixColumnCsv).1.getD [], row.length = 6)
    ∧ parsePayments sixColumnCsv = Exec.returns (some [samplePayment], none) := by
  refine ⟨?_, ?_, ?_, ?_⟩ <;> decide

theorem atoiFastLoop_of_digits (s : Str) (n : Nat) (hd : ∀ c ∈ s, isDigitChar c = true) :
    atoiFastLoop s n = Except.ok (s.foldl (fun n c => n * 10 + digitVal c) n) := by
  induction s generalizing n with
  | nil => rfl
  | cons c rest ih =>
    have hc : isDigitChar c = true := hd c (by simp)
    simp only [atoiFastLoop, hc, if_true, List.foldl_cons]
    exact ih _ (fun c hc => hd c (by simp [hc]))

theorem foldl_digits_shift (s : Str) (x : Nat) :
    s.foldl (fun n c => n * 10 + digitVal c) x
      = x * 10 ^ s.length + s.foldl (fun n c => n * 10 + digitVal c) 0 := by
  induction s generalizing x with
  | nil => simp
  | cons c rest ih =>
    simp only [List.foldl_cons, List.length_cons, Nat.zero_mul, Nat.zero_add]
    rw [ih (x * 10 + digitVal c), ih (digitVal c)]
    ring

/-- The result of `strconv.Atoi` on an eight-digit date followed by a six-digit time. -/
theorem Atoi_date_time (date time : Str) (hdl : date.length = 8) (htl : time.length = 6)
    (hdd : ∀ c ∈ date, isDigitChar c = true) (htd : ∀ c ∈ time, isDigitChar c = true) :
    Atoi (date ++ time)
      = Except.ok (((decimalValue date * 1000000 + decimalValue time : Nat)) : Int) := by
  have hlen : (date ++ time).length = 14 := by simp [hdl, htl]
  have hall : ∀ c ∈ date ++ time, isDigitChar c = true := by
    intro c hc
    rcases List.mem_append.mp hc with h | h
    · exact hdd c h
    · exact htd c h
  have hval : (date ++ time).foldl (fun n c => n * 10 + digitVal c) 0
      = decimalValue date * 1000000 + decimalValue time := by
    rw [List.foldl_append, foldl_digits_shift time, htl]
    simp [decimalValue]
  cases hdt : date ++ time with
  | nil => rw [hdt] at hlen; simp at hlen
  | cons c rest =>
    have hc : isDigitChar c = true := hall c (by rw [hdt]; simp)
    obtain ⟨hm, hp⟩ := not_sign_of_isDigitChar c hc
    have hfast := atoiFastLoop_of_digits (c :: rest) 0 (by rw [← hdt]; exact hall)
    have hlen2 : (c :: rest).length = 14 := by rw [← hdt]; exact hlen
    rw [← hdt, hval] at hfast
    unfold Atoi
    rw [hlen2]
    simp only [Nat.lt_add_one, Nat.reduceLT, and_self, if_true, hm, hp, or_self, if_false]
    rw [hdt] at hfast
    rw [hfast]

/-- Claim C7: a data row whose date column is eight decimal digits of value `d` and whose
time column is six decimal digits of value `t`, and whose sequence and amount parse, gives
the record with `AsOf = d * 1000000 + t`, a number below `2^63`; the records of the other
rows come before and after it in row order. -/
theorem parsePayments_asOf (input : Str) (hdr : List Str) (pre post : List (List Str))
    (date time sequence amount comment : Str) (extra : List Str) (s a : Int)
    (hread : ReadAll input
      = (some (hdr :: (pre ++ (date :: time :: sequence :: amount :: comment :: extra) :: post)),
         none))
    (h5 : ∀ row ∈ pre ++ post, 5 ≤ row.length)
    (hdl : date.length = 8) (hdd : ∀ c ∈ date, isDigitChar c = true)
    (htl : time.length = 6) (htd : ∀ c ∈ time, isDigitChar c = true)
    (hs : Atoi sequence = Except.ok s) (ha : Atoi amount = Except.ok a) :
    parsePayments input
      = Exec.returns
          (some (pre.filterMap recordOfRow
            ++ { AsOf := ((decimalValue date * 1000000 + decimalValue time : Nat) : Int),
                 Sequence := s, Amount := a, Comment := comment }
              :: post.filterMap recordOfRow), none)
    ∧ ((decimalValue date * 1000000 + decimalValue time : Nat) : Int) < 2 ^ 63 := by
  constructor
  · have hrow : recordOfRow (date :: time :: sequence :: amount :: comment :: extra)
        = some { AsOf := ((decimalValue date * 1000000 + decimalValue time : Nat) : Int),
                 Sequence := s, Amount := a, Comment := comment } := by
      simp only [recordOfRow, Atoi_date_time date time hdl htl hdd htd, hs, ha]
    have hall : ∀ row ∈ pre ++ (date :: time :: sequence :: amount :: comment :: extra) :: post,
        5 ≤ row.length := by
      intro row hmem
      rcases List.mem_append.mp hmem with h | h
      · exact h5 row (List.mem_append.mpr (Or.inl h))
      · rcases List.mem_cons.mp h with h | h
        · rw [h]; simp
        · exact h5 row (List.mem_append.mpr (Or.inr h))
    unfold parsePayments
    rw [hread]
    simp only [Option.getD_some, parsePaymentsLoop, if_true]
    rw [parsePaymentsLoop_five_columns _ 0 [] hall]
    simp [List.filterMap_append, hrow]
  · have h1 := foldl_digits_lt date 0 hdd
    have h2 := foldl_digits_lt time 0 htd
    rw [hdl] at h1
    rw [htl] at h2
    simp only [decimalValue]
    norm_num at h1 h2
    have : List.foldl (fun n c => n * 10 + digitVal c) 0 date * 1000000
        + List.foldl (fun n c => n * 10 + digitVal c) 0 time < 2 ^ 63 := by omega
    exact_mod_cast this

set_option maxRecDepth 100000 in
theorem parsePayments_asOf_witness :
    (parsePayments sampleCsv
      = Exec.returns
          (some (([] : List (List Str)).filterMap recordOfRow
            ++ { AsOf := ((decimalValue "20220717".toList * 1000000
                            + decimalValue "090000".toList : Nat) : Int),
                 Sequence := 211, Amount := 500, Comment := "payment2".toList }
              :: (sampleTable.drop 2).filterMap recordOfRow), none)
     ∧ ((decimalValue "20220717".toList * 1000000 + decimalValue "090000".toList : Nat) : Int)
        < 2 ^ 63)
    ∧ decimalValue "20220717".toList * 1000000 + decimalValue "090000".toList
        = 20220717090000 :=
  ⟨parsePayments_asOf sampleCsv (sampleTable.headD []) [] (sampleTable.drop 2)
    "20220717".toList "090000".toList "211".toList "500".toList "payment2".toList [] 211 500
    (by decide) (by decide) (by decide) (by decide) (by decide) (by decide) (by rfl)
    (by rfl), by decide⟩

theorem parseRow_of_rowFailsIntegerParse (row : List Str)
    (h : rowFailsIntegerParse row = true) : parseRow row = Exec.returns none := by
  rcases row with _ | ⟨c0, _ | ⟨c1, _ | ⟨c2, _ | ⟨c3, rest3⟩⟩⟩⟩
  · simp [rowFailsIntegerParse] at h
  · simp [rowFailsIntegerParse] at h
  · simp only [rowFailsIntegerParse, integerParseFails, Bool.or_false] at h
    simp only [parseRow, List.get?_cons_zero, List.get?_cons_succ]
    cases h1 : Atoi (c0 ++ c1) with
    | error e => rfl
    | ok v1 => simp [h1] at h
  · simp only [rowFailsIntegerParse, integerParseFails, Bool.or_false, Bool.or_eq_true] at h
    simp only [parseRow, List.get?_cons_zero, List.get?_cons_succ]
    cases h1 : Atoi (c0 ++ c1) with
    | error e => rfl
    | ok v1 =>
      cases h2 : Atoi c2 with
      | error e => rfl
      | ok v2 => simp [h1, h2] at h
  · simp only [rowFailsIntegerParse, integerParseFails, Bool.or_eq_true] at h
    simp only [parseRow, List.get?_cons_zero, List.get?_cons_succ]
    cases h1 : Atoi (c0 ++ c1) with
    | error e => rfl
    | ok v1 =>
      cases h2 : Atoi c2 with
      | error e => rfl
      | ok v2 =>
        cases h3 : Atoi c3 with
        | error e => rfl
        | ok v3 => simp [h1, h2, h3] at h

theorem parsePaymentsLoop_all_skipped (rows : List (List Str)) (i : Nat) (acc : Slice Payment)
    (h : ∀ row ∈ rows, parseRow row = Exec.returns none) :
    parsePaymentsLoop (i + 1) rows acc = Exec.returns acc := by
  induction rows generalizing i with
  | nil => simp [parsePaymentsLoop]
  | cons row rest ih =>
    simp only [parsePaymentsLoop, Nat.add_one_ne_zero, if_false, h row (by simp)]
    exact ih (i + 1) (fun r hr => h r (by simp [hr]))

/-- Claim C8: a table with exactly one row, whatever the row holds, gives the empty, non-nil
sequence and no error: row 0 is never turned into a record; the same result is returned
when every row after the header fails an integer parse. -/
theorem parsePayments_no_data_rows :
    (∀ (input : Str) (row : List Str), ReadAll input = (some [row], none) →
      parsePayments input = Exec.returns (some [], none))
    ∧ (∀ (input : Str) (hdr : List Str) (rows : List (List Str)),
        ReadAll input = (some (hdr :: rows), none) →
        (∀ row ∈ rows, rowFailsIntegerParse row = true) →
        parsePayments input = Exec.returns (some [], none)) := by
  constructor
  · intro input row hread
    unfold parsePayments
    rw [hread]
    simp [parsePaymentsLoop]
  · intro input hdr rows hread hfail
    unfold parsePayments
    rw [hread]
    simp only [Option.getD_some, parsePaymentsLoop, if_true]
    rw [parsePaymentsLoop_all_skipped rows 0 (some [])
      (fun row hrow => parseRow_of_rowFailsIntegerParse row (hfail row hrow))]

set_option maxRecDepth 100000 in
theorem parsePayments_no_data_rows_witness :
    parsePayments dataRowOnlyCsv = Exec.returns (some [], none)
    ∧ parsePayments allSkippedCsv = Exec.returns (some [], none) :=
  ⟨parsePayments_no_data_rows.1 dataRowOnlyCsv
     ["20220717".toList, "090000".toList, "211".toList, "500".toList, "x".toList] (by decide),
   parsePayments_no_data_rows.2 allSkippedCsv
     ["date".toList, "time".toList, "sequence".toList, "amount".toList, "comment".toList]
     [["2022-07-17".toList, "090000".toList, "211".toList, "500".toList, "a".toList],
      ["20220717".toList, "090000".toList, [], "500".toList, "b".toList],
      ["20220717".toList, "090000".toList, "211".toList, "5.00".toList, "c".toList]]
     (by decide) (by decide)⟩

/-! ### The loop bounds of the reader are never used up -/

theorem stringsCut_length (sep : Char) (s a b : Str) (h : stringsCut sep s = some (a, b)) :
    a.length + 1 + b.length = s.length := by
  induction s generalizing a b with
  | nil => simp [stringsCut] at h
  | cons c cs ih =>
    by_cases hc : c = sep
    · simp only [stringsCut, hc, if_true, Option.some.injEq, Prod.mk.injEq] at h
      obtain ⟨rfl, rfl⟩ := h
      simp only [List.length_nil, List.length_cons]
      omega
    · simp only [stringsCut, hc, if_false] at h
      cases hcut : stringsCut sep cs with
      | none => simp [hcut] at h
      | some ab =>
        obtain ⟨a1, b1⟩ := ab
        simp only [hcut, Option.some.injEq, Prod.mk.injEq] at h
        obtain ⟨rfl, rfl⟩ := h
        have := ih a1 b1 hcut
        simp only [List.length_cons]
        omega

theorem parseFields_bound (fuel : Nat) :
    ∀ (line : Str) (lines fields : List Str) (q : Option Str),
      line.length + lines.flatten.length < fuel →
      parseFields fuel line lines fields q ≠ Lexed.failed CsvError.readBound
      ∧ ∀ dst rest, parseFields fuel line lines fields q = Lexed.record dst rest →
          rest.length ≤ lines.length := by
  induction fuel with
  | zero =>
    intro line lines fields q h
    omega
  | succ fuel ih =>
    intro line lines fields q hlt
    cases q with
    | none =>
      simp only [parseFields]
      split
      · split
        · rename_i field after hcut
          have hlen := stringsCut_length _ _ _ _ hcut
          split
          · simp
          · exact ih after lines _ none (by omega)
        · split
          · simp
          · refine ⟨by simp, ?_⟩
            intro dst rest h
            simp only [Lexed.record.injEq] at h
            rw [← h.2]
      · rename_i hq
        have hne : line ≠ [] := fun h => hq (Or.inl h)
        have hpos : 0 < line.length := List.length_pos.mpr hne
        exact ih (line.drop 1) lines fields (some []) (by simp only [List.length_drop]; omega)
    | some buf =>
      simp only [parseFields]
      split
      · rename_i pre after hcut
        have hlen := stringsCut_length _ _ _ _ hcut
        split
        · rename_i c more
          simp only [List.length_cons] at hlen
          split
          · exact ih more lines fields _ (by omega)
          · split
            · exact ih more lines _ none (by omega)
            · split
              · refine ⟨by simp, ?_⟩
                intro dst rest h
                simp only [Lexed.record.injEq] at h
                rw [← h.2]
              · simp
        · refine ⟨by simp, ?_⟩
          intro dst rest h
          simp only [Lexed.record.injEq] at h
          rw [← h.2]
      · split
        · rename_i hpos
          split
          · rename_i next rest
            have hfl : (next :: rest).flatten.length = next.length + rest.flatten.length := by
              simp
            obtain ⟨h1, h2⟩ := ih next rest fields (some (buf ++ line)) (by omega)
            refine ⟨h1, ?_⟩
            intro dst rest1 h
            have := h2 dst rest1 h
            simp only [List.length_cons]
            omega
          · exact ih [] [] fields (some (buf ++ line)) (by simp; omega)
        · simp

theorem skipEmptyLines_length (lines : List Str) :
    (skipEmptyLines lines).length ≤ lines.length := by
  induction lines with
  | nil => simp [skipEmptyLines]
  | cons line rest ih =>
    simp only [skipEmptyLines]
    split
    · simp only [List.length_cons]; omega
    · exact le_refl _

theorem readAllLoop_bound (fuel : Nat) :
    ∀ (fieldsPerRecord : Int) (lines : List Str) (records : Slice (List Str)),
      lines.length < fuel →
      (readAllLoop fuel fieldsPerRecord lines records).2 ≠ some CsvError.readBound := by
  induction fuel with
  | zero =>
    intro fieldsPerRecord lines records h
    omega
  | succ fuel ih =>
    intro fieldsPerRecord lines records hlt
    rw [readAllLoop_succ]
    have hskip := skipEmptyLines_length lines
    generalize skipEmptyLines lines = sk at hskip
    cases sk with
    | nil => simp
    | cons line rest =>
      dsimp only
      have hb := parseFields_bound (recordBound line rest) line rest [] none
        (by simp [recordBound])
      generalize parseFields (recordBound line rest) line rest [] none = lexed at hb
      cases lexed with
      | failed e =>
        dsimp only
        intro h
        simp only [Option.some.injEq] at h
        exact hb.1 (by rw [h])
      | record dst rest1 =>
        dsimp only
        have hrest := hb.2 dst rest1 rfl
        simp only [List.length_cons] at hskip
        have hlt1 : rest1.length < fuel := by omega
        split
        · split
          · simp
          · exact ih _ _ _ hlt1
        · split
          · exact ih _ _ _ hlt1
          · exact ih _ _ _ hlt1

/-- The bound of the embedding is never the reason of an error of `ReadAll`: every error it
returns is an error of the Go reader. -/
theorem csvReadAll_ne_readBound (fieldsPerRecord : Int) (input : Str) :
    (csvReadAll fieldsPerRecord input).2 ≠ some CsvError.readBound := by
  unfold csvReadAll
  exact readAllLoop_bound _ _ _ _ (Nat.lt_succ_self _)

/-! ### The listings -/

theorem listDirectoriesLoop_eq (entries : List DirEntry) (acc : List Str) :
    listDirectoriesLoop entries (some acc)
      = some (acc ++ (entries.map DirEntry.Name).filter
          (fun n => decide (validateDirName n = none))) := by
  induction entries generalizing acc with
  | nil => simp [listDirectoriesLoop]
  | cons e rest ih =>
    cases hv : validateDirName e.Name with
    | none => simp [listDirectoriesLoop, hv, sliceAppend, ih]
    | some err => simp [listDirectoriesLoop, hv, ih]

theorem listPaymentsLoop_eq (entries : List DirEntry) (acc : List Str) :
    listPaymentsLoop entries (some acc)
      = some (acc ++ (entries.map DirEntry.Name).filter
          (fun n => decide (validateFileName n = none))) := by
  induction entries generalizing acc with
  | nil => simp [listPaymentsLoop]
  | cons e rest ih =>
    cases hv : validateFileName e.Name with
    | none => simp [listPaymentsLoop, hv, sliceAppend, ih]
    | some err => simp [listPaymentsLoop, hv, ih]

/-- Claim C9: when listing `BaseDir` succeeds with some entries, `ListDirectories` returns no
error and exactly the names among them that `validateDirName` accepts, in the order of the
listing; the error it returns is the error of listing `BaseDir`, so it fails only when that
listing fails. -/
theorem ListDirectories_filters (fs : FileSystem) (p : PaymentsService) :
    (∀ entries : List DirEntry, fs.ReadDir p.BaseDir = (entries, none) →
      ListDirectories fs p
        = (some ((entries.map DirEntry.Name).filter
            (fun n => decide (validateDirName n = none))), none))
    ∧ (ListDirectories fs p).2 = (fs.ReadDir p.BaseDir).2 := by
  constructor
  · intro entries h
    simp [ListDirectories, h, listDirectoriesLoop_eq]
  · unfold ListDirectories
    rcases h : fs.ReadDir p.BaseDir with ⟨entries, _ | err⟩ <;> simp

theorem ListDirectories_filters_witness :
    ListDirectories sampleFileSystem { BaseDir := "/data".toList }
        = (some ((([{ Name := "2022".toList, IsDir := true },
                    { Name := "20220717".toList, IsDir := true },
                    { Name := "junk".toList, IsDir := true }] : List DirEntry).map
                  DirEntry.Name).filter (fun n => decide (validateDirName n = none))), none)
    ∧ ListDirectories sampleFileSystem { BaseDir := "/data".toList }
        = (some ["20220717".toList], none)
    ∧ ListDirectories sampleFileSystem { BaseDir := "/void".toList } = (some [], none)
    ∧ ListDirectories sampleFileSystem { BaseDir := "/data/junk".toList } = (some [], none)
    ∧ ListDirectories sampleFileSystem { BaseDir := "/nowhere".toList }
        = (none, some OsError.ErrNotExist) :=
  ⟨(ListDirectories_filters sampleFileSystem { BaseDir := "/data".toList }).1 _ (by decide),
   by decide, by decide, by decide, by decide⟩

/-- Claim C10: for every string `dir`, the error of `ListPayments(dir)` is the error of
listing `join(BaseDir, dir)`, so it fails exactly when that listing fails; when the listing
succeeds it returns exactly the entry names that `validateFileName` accepts, in the order of
the listing.  Nothing depends on `dir` being a valid day name. -/
theorem ListPayments_filters (fs : FileSystem) (p : PaymentsService) (dir : Str) :
    (ListPayments fs p dir).2 = (fs.ReadDir (filepathJoin [p.BaseDir, dir])).2
    ∧ (∀ entries : List DirEntry,
        fs.ReadDir (filepathJoin [p.BaseDir, dir]) = (entries, none) →
        ListPayments fs p dir
          = (some ((entries.map DirEntry.Name).filter
              (fun n => decide (validateFileName n = none))), none)) := by
  constructor
  · unfold ListPayments
    rcases h : fs.ReadDir (filepathJoin [p.BaseDir, dir]) with ⟨entries, _ | err⟩ <;>
      simp [h]
  · intro entries h
    simp [ListPayments, h, listPaymentsLoop_eq]

theorem ListPayments_filters_witness :
    (validateDirName "junk".toList).isSome = true
    ∧ ListPayments sampleFileSystem { BaseDir := "/data".toList } "junk".toList
        = (some ((([{ Name := "123000.payments".toList, IsDir := false }] : List DirEntry).map
                  DirEntry.Name).filter (fun n => decide (validateFileName n = none))), none)
    ∧ ListPayments sampleFileSystem { BaseDir := "/data".toList } "junk".toList
        = (some ["123000.payments".toList], none)
    ∧ ListPayments sampleFileSystem { BaseDir := "/data".toList } "20220717".toList
        = (some ["090000.payments".toList], none)
    ∧ ListPayments sampleFileSystem { BaseDir := "/data".toList } "20220718".toList
        = (none, some OsError.ErrNotExist) :=
  ⟨by decide,
   (ListPayments_filters sampleFileSystem { BaseDir := "/data".toList } "junk".toList).2 _
     (by decide),
   by decide, by decide, by decide⟩

/-- Claim C5 is not met by the code: `validateFileName` accepts names that are longer than 15
characters and hold a fractional second between the six digits and the suffix (`time.Parse`
reads a fraction after the seconds even when the layout has none); the sample names of the
specification and of the tests are accepted and rejected as the claim says. -/
theorem validateFileName_accepts_fractional_second :
    validateFileName "010100.5.payments".toList = none
    ∧ "010100.5.payments".toList.length = 17
    ∧ validateFileName "090000,250.payments".toList = none
    ∧ validateFileName "010100.payments".toList = none
    ∧ validateFileName "123000.payments".toList = none
    ∧ validateFileName "090000.payments".toList = none
    ∧ (validateFileName "01".toList).isSome = true
    ∧ (validateFileName "010100".toList).isSome = true
    ∧ (validateFileName ".payments".toList).isSome = true
    ∧ (validateFileName "a.payments".toList).isSome = true
    ∧ (validateFileName "aabbcc".toList).isSome = true
    ∧ (validateFileName "250000.payments".toList).isSome = true := by
  refine ⟨?_, ?_, ?_, ?_, ?_, ?_, ?_, ?_, ?_, ?_, ?_, ?_⟩ <;> decide

/-! ### The service and the handler -/

/-- Claim C11: `GetPayments` fails with the error of the read when the file at `BaseDir`
joined with the relative path cannot be read, and otherwise returns what `parsePayments`
returns on the content of the file, records or error; no component of the path is checked
against a naming convention. -/
theorem GetPayments_reads_and_parses (fs : FileSystem) (p : PaymentsService) (rp : Str) :
    (∀ (content : Str) (err : OsError),
      fs.ReadFile (filepathJoin [p.BaseDir, rp]) = (content, some err) →
      GetPayments fs p rp = Exec.returns (none, some (ServiceError.os err)))
    ∧ (∀ content : Str, fs.ReadFile (filepathJoin [p.BaseDir, rp]) = (content, none) →
        GetPayments fs p rp
          = match parsePayments content with
            | Exec.panics => Exec.panics
            | Exec.returns (payments, err) =>
              Exec.returns (payments, err.map ServiceError.csv)) := by
  constructor
  · intro content err h
    simp [GetPayments, h]
  · intro content h
    simp only [GetPayments, h]
    cases parsePayments content with
    | panics => rfl
    | returns r =>
      obtain ⟨payments, _ | err⟩ := r <;> rfl

set_option maxRecDepth 100000 in
theorem GetPayments_reads_and_parses_witness :
    GetPayments handlerFileSystem handlerService "20220717/nope".toList
        = Exec.returns (none, some (ServiceError.os OsError.ErrNotExist))
    ∧ GetPayments handlerFileSystem handlerService "20220717/090000.payments".toList
        = (match parsePayments twoRowCsv with
           | Exec.panics => Exec.panics
           | Exec.returns (payments, err) => Exec.returns (payments, err.map ServiceError.csv))
    ∧ GetPayments handlerFileSystem handlerService "20220717/090000.payments".toList
        = Exec.returns
            (some [{ AsOf := 20220717090000, Sequence := 211, Amount := 500,
                     Comment := "payment2".toList },
                   { AsOf := 20220717090000, Sequence := 212, Amount := 600,
                     Comment := "payment3".toList }], none)
    ∧ (validateDirName "misc".toList).isSome = true
    ∧ (validateFileName "table.csv".toList).isSome = true
    ∧ GetPayments handlerFileSystem handlerService "misc/table.csv".toList
        = GetPayments handlerFileSystem handlerService "20220717/090000.payments".toList :=
  ⟨(GetPayments_reads_and_parses handlerFileSystem handlerService "20220717/nope".toList).1
      [] OsError.ErrNotExist (by decide),
   (GetPayments_reads_and_parses handlerFileSystem handlerService
      "20220717/090000.payments".toList).2 twoRowCsv (by decide),
   by decide, by decide, by decide, by decide⟩

/-- Claim C16: `NewWithBaseDir` returns the error of listing the root, so it fails exactly
when that listing fails, and then the service is nil; when it succeeds the service has
`BaseDir` equal to the root as given.  A path that does not exist fails with a nil service;
an existing empty directory gives a service. -/
theorem NewWithBaseDir_fails_iff :
    (∀ (fs : FileSystem) (root : Str),
      (NewWithBaseDir fs root).2 = (fs.ReadDir root).2
      ∧ (NewWithBaseDir fs root).1
          = if (fs.ReadDir root).2 = none then some { BaseDir := root } else none)
    ∧ NewWithBaseDir sampleFileSystem "/tmp/nonexistent".toList
        = (none, some OsError.ErrNotExist)
    ∧ NewWithBaseDir sampleFileSystem "/void".toList
        = (some { BaseDir := "/void".toList }, none) := by
  refine ⟨fun fs root => ?_, by decide, by decide⟩
  unfold NewWithBaseDir
  cases h : (fs.ReadDir root).2 with
  | none => simp
  | some err => simp

/-- Claim C17 is not met by the code: `ListDirectories` returns the name of a regular file of
`BaseDir` when the name is a valid date; the kind of an entry is never looked at. -/
theorem ListDirectories_returns_regular_file :
    (fileNamedLikeDay.ReadDir "/data".toList).1
        = [{ Name := "20220717".toList, IsDir := false },
           { Name := "20220718".toList, IsDir := true }]
    ∧ ListDirectories fileNamedLikeDay { BaseDir := "/data".toList }
        = (some ["20220717".toList, "20220718".toList], none) := by
  constructor <;> decide

/-- Claim C18: each validator returns either no error or an error that carries the name it
was given, and the text of that error is `invalid directory name` (or `invalid file name`),
the name between single quotes, a colon and a space, followed by the text of the error of
`time.Parse`; this holds for every string, so no input makes a validator abort. -/
theorem validators_name_the_offender (parseErrorText : Str → Str → Str) (s : Str) :
    (validateDirName s = none
      ∨ ∃ cause, validateDirName s = some (NameError.invalidDirectoryName s cause)
          ∧ (NameError.invalidDirectoryName s cause).Error parseErrorText
              = "invalid directory name ".toList ++ [apostrophe] ++ s ++ [apostrophe]
                  ++ ": ".toList ++ parseErrorText dateLayout s)
    ∧ (validateFileName s = none
      ∨ ∃ cause, validateFileName s = some (NameError.invalidFileName s cause)
          ∧ (NameError.invalidFileName s cause).Error parseErrorText
              = "invalid file name ".toList ++ [apostrophe] ++ s ++ [apostrophe]
                  ++ ": ".toList ++ parseErrorText timeLayout s) := by
  constructor
  · unfold validateDirName
    cases timeParse dateLayout s with
    | ok f => exact Or.inl rfl
    | error e => exact Or.inr ⟨e, rfl, rfl⟩
  · unfold validateFileName
    cases timeParse timeLayout s with
    | ok f => exact Or.inl rfl
    | error e => exact Or.inr ⟨e, rfl, rfl⟩

set_option maxRecDepth 100000 in
/-- Claim C20 is not met by the code: the reader accepts a file whose rows all have three
columns, and on its data row `parsePayments` reads `row[3]` past the end of the row, which
is a run-time panic; a request for such a file ends in that panic. -/
theorem parsePayments_short_rows_panic :
    ReadAll shortRowsCsv
        = (some [["a".toList, "b".toList, "c".toList], ["1".toList, "2".toList, "3".toList]],
           none)
    ∧ parsePayments shortRowsCsv = Exec.panics
    ∧ (ServeHTTP handlerFileSystem sampleEncoder sampleHandler ResponseWriter.fresh
        "/20220718/020202.payments".toList).outcome = Exec.panics := by
  refine ⟨?_, ?_, ?_⟩ <;> decide

theorem serveNotFound_fresh :
    serveNotFound ResponseWriter.fresh
      = { handlerHeader := [], wroteHeader := true, status := 404, sentHeader := [],
          body := "not found".toList } := by
  decide

theorem serveError_fresh :
    serveError ResponseWriter.fresh
      = { handlerHeader := [], wroteHeader := true, status := 500, sentHeader := [],
          body := "server error".toList } := by
  decide

theorem serveJSON_fresh (body : Str) :
    serveJSON ResponseWriter.fresh body
      = { handlerHeader := [("content-type".toList, "application/json".toList)],
          wroteHeader := true, status := 200, sentHeader := [], body := body } := by
  simp [serveJSON, ResponseWriter.fresh, ResponseWriter.WriteHeader, ResponseWriter.HeaderAdd,
    ResponseWriter.Write]

/-- The four ways in which `ServeHTTP` ends. -/
theorem ServeHTTP_outcome_cases (fs : FileSystem) (json : JsonEncoder) (h : Handler)
    (w : ResponseWriter) (urlPath : Str) :
    (ServeHTTP fs json h w urlPath).outcome = Exec.panics
    ∨ (ServeHTTP fs json h w urlPath).outcome = Exec.returns (serveNotFound w)
    ∨ (ServeHTTP fs json h w urlPath).outcome = Exec.returns (serveError w)
    ∨ ∃ body, (ServeHTTP fs json h w urlPath).outcome = Exec.returns (serveJSON w body) := by
  unfold ServeHTTP
  rcases hp : parsePath urlPath with ⟨t, urlParams⟩
  cases t with
  | PATH_ROOT =>
    dsimp only
    rcases hl : ListDirectories fs h.paymentsService with ⟨dirs, _ | err⟩
    · dsimp only
      rcases hm : json.MarshalStrings dirs with ⟨bytes, _ | jerr⟩
      · exact Or.inr (Or.inr (Or.inr ⟨bytes, rfl⟩))
      · exact Or.inr (Or.inr (Or.inl rfl))
    · exact Or.inr (Or.inr (Or.inl rfl))
  | PATH_DIR =>
    dsimp only
    cases hd : (urlParams.getD []).get? 0 with
    | none => exact Or.inl rfl
    | some dir =>
      dsimp only
      rcases hl : ListPayments fs h.paymentsService dir with ⟨dirs, _ | err⟩
      · dsimp only
        rcases hm : json.MarshalStrings dirs with ⟨bytes, _ | jerr⟩
        · exact Or.inr (Or.inr (Or.inr ⟨bytes, rfl⟩))
        · exact Or.inr (Or.inr (Or.inl rfl))
      · exact Or.inr (Or.inl rfl)
  | PATH_PAYMENT =>
    dsimp only
    cases hg : GetPayments fs h.paymentsService (stringsJoin (urlParams.getD []) [slash]) with
    | panics => exact Or.inl rfl
    | returns r =>
      obtain ⟨payments, _ | err⟩ := r
      · dsimp only
        rcases hm : json.MarshalPayments payments with ⟨bytes, _ | jerr⟩
        · exact Or.inr (Or.inr (Or.inr ⟨bytes, rfl⟩))
        · exact Or.inr (Or.inr (Or.inl rfl))
      · exact Or.inr (Or.inl rfl)
  | PATH_ERROR => exact Or.inr (Or.inr (Or.inl rfl))

/-- Claim C14: when `ServeHTTP` answers with a status other than 200, the status is 404 and
the body is `not found`, or the status is 500 and the body is `server error`: the body is
one of the two fixed texts, whatever the request and the state of the file system. -/
theorem ServeHTTP_error_bodies (fs : FileSystem) (json : JsonEncoder) (h : Handler)
    (urlPath : Str) (r : ResponseWriter)
    (hret : (ServeHTTP fs json h ResponseWriter.fresh urlPath).outcome = Exec.returns r)
    (hne : r.status ≠ 200) :
    (r.status = 404 ∧ r.body = "not found".toList)
    ∨ (r.status = 500 ∧ r.body = "server error".toList) := by
  rcases ServeHTTP_outcome_cases fs json h ResponseWriter.fresh urlPath with
    hc | hc | hc | ⟨body, hc⟩
  · rw [hc] at hret; cases hret
  · rw [hc] at hret
    injection hret with hr
    rw [← hr, serveNotFound_fresh]
    exact Or.inl ⟨rfl, rfl⟩
  · rw [hc] at hret
    injection hret with hr
    rw [← hr, serveError_fresh]
    exact Or.inr ⟨rfl, rfl⟩
  · rw [hc] at hret
    injection hret with hr
    rw [← hr, serveJSON_fresh] at hne
    exact absurd rfl hne

set_option maxRecDepth 100000 in
theorem ServeHTTP_error_bodies_witness :
    (ServeHTTP handlerFileSystem sampleEncoder sampleHandler ResponseWriter.fresh
        "/20220719".toList).outcome = Exec.returns (serveNotFound ResponseWriter.fresh)
    ∧ (serveNotFound ResponseWriter.fresh).status ≠ 200
    ∧ (((serveNotFound ResponseWriter.fresh).status = 404
          ∧ (serveNotFound ResponseWriter.fresh).body = "not found".toList)
        ∨ ((serveNotFound ResponseWriter.fresh).status = 500
          ∧ (serveNotFound ResponseWriter.fresh).body = "server error".toList)) :=
  ⟨by decide, by decide,
   ServeHTTP_error_bodies handlerFileSystem sampleEncoder sampleHandler "/20220719".toList
     (serveNotFound ResponseWriter.fresh) (by decide) (by decide)⟩

/-- Claim C15: a request path with three or more non-empty segments is answered with status
500 and the body `server error`, and no method of the payments service is called, so the
answer is the same in every state of the file system. -/
theorem ServeHTTP_invalid_path (fs : FileSystem) (json : JsonEncoder) (h : Handler)
    (urlPath : Str) (h3 : 3 ≤ (pathSegments urlPath).length) :
    ServeHTTP fs json h ResponseWriter.fresh urlPath
      = { calls := [], outcome := Exec.returns (serveError ResponseWriter.fresh) }
    ∧ (serveError ResponseWriter.fresh).status = 500
    ∧ (serveError ResponseWriter.fresh).body = "server error".toList := by
  refine ⟨?_, by decide, by decide⟩
  have hp : parsePath urlPath = (PathType.PATH_ERROR, none) := by
    rw [parsePath_eq_classify]
    rcases hs : pathSegments urlPath with _ | ⟨a, _ | ⟨b, _ | ⟨c, rest⟩⟩⟩
    · rw [hs] at h3; simp at h3
    · rw [hs] at h3; simp at h3
    · rw [hs] at h3; simp at h3
    · rfl
  unfold ServeHTTP
  rw [hp]

theorem ServeHTTP_invalid_path_witness :
    3 ≤ (pathSegments "/a/b/c".toList).length
    ∧ ServeHTTP handlerFileSystem sampleEncoder sampleHandler ResponseWriter.fresh
          "/a/b/c".toList
        = { calls := [], outcome := Exec.returns (serveError ResponseWriter.fresh) }
    ∧ (serveError ResponseWriter.fresh).status = 500
    ∧ (serveError ResponseWriter.fresh).body = "server error".toList :=
  ⟨by decide,
   ServeHTTP_invalid_path handlerFileSystem sampleEncoder sampleHandler "/a/b/c".toList
     (by decide)⟩

/-- Claim C12, as amended: for a Day-shaped or Record-shaped request, when the call of the
service (`ListPayments` or `GetPayments`) returns an error, the answer is status 404 with
the body `not found`, whatever the error is. -/
theorem ServeHTTP_service_failure (fs : FileSystem) (json : JsonEncoder) (h : Handler)
    (urlPath : Str) :
    (∀ (dir : Str) (err : OsError),
      parsePath urlPath = (PathType.PATH_DIR, some [dir]) →
      (ListPayments fs h.paymentsService dir).2 = some err →
      (ServeHTTP fs json h ResponseWriter.fresh urlPath).outcome
        = Exec.returns (serveNotFound ResponseWriter.fresh))
    ∧ (∀ (a b : Str) (payments : Slice Payment) (err : ServiceError),
        parsePath urlPath = (PathType.PATH_PAYMENT, some [a, b]) →
        GetPayments fs h.paymentsService (a ++ slash :: b)
          = Exec.returns (payments, some err) →
        (ServeHTTP fs json h ResponseWriter.fresh urlPath).outcome
          = Exec.returns (serveNotFound ResponseWriter.fresh))
    ∧ (serveNotFound ResponseWriter.fresh).status = 404
    ∧ (serveNotFound ResponseWriter.fresh).body = "not found".toList := by
  refine ⟨?_, ?_, by decide, by decide⟩
  · intro dir err hp hl
    unfold ServeHTTP
    rw [hp]
    dsimp only [Option.getD_some, List.get?_cons_zero]
    rcases hlp : ListPayments fs h.paymentsService dir with ⟨dirs, e⟩
    rw [hlp] at hl
    dsimp only at hl
    subst hl
    rfl
  · intro a b payments err hp hg
    unfold ServeHTTP
    rw [hp]
    have hj : stringsJoin ((some [a, b] : Slice Str).getD []) [slash] = a ++ slash :: b := by
      simp [stringsJoin]
    dsimp only
    rw [hj, hg]

set_option maxRecDepth 100000 in
theorem ServeHTTP_service_failure_witness :
    (ServeHTTP handlerFileSystem sampleEncoder sampleHandler ResponseWriter.fresh
        "/20220719/".toList).outcome = Exec.returns (serveNotFound ResponseWriter.fresh)
    ∧ (ServeHTTP handlerFileSystem sampleEncoder sampleHandler ResponseWriter.fresh
        "/20220717/nope".toList).outcome = Exec.returns (serveNotFound ResponseWriter.fresh) :=
  ⟨(ServeHTTP_service_failure handlerFileSystem sampleEncoder sampleHandler
      "/20220719/".toList).1 "20220719".toList OsError.ErrNotExist (by decide) (by decide),
   (ServeHTTP_service_failure handlerFileSystem sampleEncoder sampleHandler
      "/20220717/nope".toList).2.1 "20220717".toList "nope".toList none
      (ServiceError.os OsError.ErrNotExist) (by decide) (by decide)⟩

set_option maxRecDepth 100000 in
/-- Claim C12 fails as stated: a Record-shaped request for a file that is read without error
and whose CSV is structurally malformed (its second row has fewer columns than the first) is
answered with status 404, not 500. -/
theorem ServeHTTP_malformed_csv_is_404 :
    (handlerFileSystem.ReadFile
        (filepathJoin [handlerService.BaseDir, "20220718/010101.payments".toList])).2 = none
    ∧ GetPayments handlerFileSystem handlerService "20220718/010101.payments".toList
        = Exec.returns (none, some (ServiceError.csv CsvError.ErrFieldCount))
    ∧ (ServeHTTP handlerFileSystem sampleEncoder sampleHandler ResponseWriter.fresh
        "/20220718/010101.payments".toList).outcome
        = Exec.returns (serveNotFound ResponseWriter.fresh)
    ∧ (serveNotFound ResponseWriter.fresh).status = 404 := by
  refine ⟨?_, ?_, ?_, ?_⟩ <;> decide

set_option maxRecDepth 100000 in
/-- Claim C13 is not met by the code: a successful answer has status 200, but the header
`content-type: application/json` is added to the header map after `WriteHeader(200)` has
fixed the headers of the response, so the headers sent do not hold it.  This is so for the
three successful shapes: the root, a day, a record file. -/
theorem ServeHTTP_success_without_content_type :
    (ServeHTTP handlerFileSystem sampleEncoder sampleHandler ResponseWriter.fresh
        "/".toList).outcome
      = Exec.returns
          { handlerHeader := [("content-type".toList, "application/json".toList)],
            wroteHeader := true, status := 200, sentHeader := [],
            body := (sampleEncoder.MarshalStrings
              (some ["20220717".toList, "20220718".toList])).1 }
    ∧ (ServeHTTP handlerFileSystem sampleEncoder sampleHandler ResponseWriter.fresh
        "/20220717/".toList).outcome
      = Exec.returns
          { handlerHeader := [("content-type".toList, "application/json".toList)],
            wroteHeader := true, status := 200, sentHeader := [],
            body := (sampleEncoder.MarshalStrings (some ["090000.payments".toList])).1 }
    ∧ (ServeHTTP handlerFileSystem sampleEncoder sampleHandler ResponseWriter.fresh
        "/20220717/090000.payments".toList).outcome
      = Exec.returns
          { handlerHeader := [("content-type".toList, "application/json".toList)],
            wroteHeader := true, status := 200, sentHeader := [],
            body := (sampleEncoder.MarshalPayments
              (some [{ AsOf := 20220717090000, Sequence := 211, Amount := 500,
                       Comment := "payment2".toList },
                     { AsOf := 20220717090000, Sequence := 212, Amount := 600,
                       Comment := "payment3".toList }])).1 } := by
  refine ⟨?_, ?_, ?_⟩ <;> decide

/-! ### Path containment -/

theorem cleanLoop_nil (rooted : Bool) (fuel : Nat) (outRev : Str) (dotdot : Nat) :
    cleanLoop rooted fuel [] outRev dotdot = outRev := by
  cases fuel <;> rfl

theorem cleanLoop_cons (rooted : Bool) (fuel : Nat) (c : Char) (cs outRev : Str)
    (dotdot : Nat) :
    cleanLoop rooted (fuel + 1) (c :: cs) outRev dotdot =
      if c = slash then cleanLoop rooted fuel cs outRev dotdot
      else if c = '.' ∧ (cs = [] ∨ cs.head? = some slash) then
        cleanLoop rooted fuel cs outRev dotdot
      else if c = '.' ∧ cs.head? = some '.'
          ∧ (cs.drop 1 = [] ∨ (cs.drop 1).head? = some slash) then
        if outRev.length > dotdot then
          match outRev with
          | [] => cleanLoop rooted fuel (cs.drop 1) outRev dotdot
          | last :: more =>
            cleanLoop rooted fuel (cs.drop 1) (cleanBacktrack dotdot last more) dotdot
        else if !rooted then
          cleanLoop rooted fuel (cs.drop 1)
            ('.' :: '.' :: (if outRev.length > 0 then slash :: outRev else outRev))
            ((if outRev.length > 0 then slash :: outRev else outRev).length + 2)
        else cleanLoop rooted fuel (cs.drop 1) outRev dotdot
      else
        cleanLoop rooted fuel ((c :: cs).dropWhile (fun x => decide (x ≠ slash)))
          (((c :: cs).takeWhile (fun x => decide (x ≠ slash))).reverse
            ++ (if (rooted ∧ outRev.length ≠ 1) ∨ (!rooted ∧ outRev.length ≠ 0)
                then slash :: outRev else outRev)) dotdot := by
  rfl

theorem takeWhile_not_slash_of_element (name rest : Str) (h : slash ∉ name) :
    (name ++ slash :: rest).takeWhile (fun x => decide (x ≠ slash)) = name := by
  rw [List.takeWhile_append_of_pos]
  · simp
  · intro x hx
    have : x ≠ slash := fun e => h (e ▸ hx)
    simp [this]

theorem dropWhile_not_slash_of_element (name rest : Str) (h : slash ∉ name) :
    (name ++ slash :: rest).dropWhile (fun x => decide (x ≠ slash)) = slash :: rest := by
  rw [List.dropWhile_append_of_pos]
  · simp
  · intro x hx
    have : x ≠ slash := fun e => h (e ▸ hx)
    simp [this]

theorem takeWhile_not_slash_self (name : Str) (h : slash ∉ name) :
    name.takeWhile (fun x => decide (x ≠ slash)) = name := by
  rw [List.takeWhile_eq_self_iff]
  intro x hx
  have : x ≠ slash := fun e => h (e ▸ hx)
  simp [this]

theorem dropWhile_not_slash_self (name : Str) (h : slash ∉ name) :
    name.dropWhile (fun x => decide (x ≠ slash)) = [] := by
  rw [List.dropWhile_eq_nil_iff]
  intro x hx
  have : x ≠ slash := fun e => h (e ▸ hx)
  simp [this]

/-- The loop of `Clean` on a last path element that is neither empty nor `..`. -/
theorem cleanLoop_element (rooted : Bool) (fuel : Nat) (name outRev : Str) (dotdot : Nat)
    (hel : isPathElement name) (hdd : name ≠ ['.', '.']) :
    cleanLoop rooted (fuel + 1) name outRev dotdot = cleanPush rooted name outRev := by
  obtain ⟨hne, hns⟩ := hel
  rcases name with _ | ⟨c, cs⟩
  · exact absurd rfl hne
  · have hc : c ≠ slash := fun e => hns (by simp [e])
    have hcs : slash ∉ cs := fun e => hns (by simp [e])
    have hhead : cs.head? ≠ some slash := by
      intro e
      rcases cs with _ | ⟨d, ds⟩
      · simp at e
      · simp at e; exact hcs (by simp [e])
    rw [cleanLoop_cons, if_neg hc]
    by_cases hdot : c = '.' ∧ cs = []
    · obtain ⟨rfl, rfl⟩ := hdot
      simp [cleanLoop_nil, cleanPush]
    · have h2 : ¬ (c = '.' ∧ (cs = [] ∨ cs.head? = some slash)) := by
        rintro ⟨h1, h2 | h2⟩
        · exact hdot ⟨h1, h2⟩
        · exact hhead h2
      have h3 : ¬ (c = '.' ∧ cs.head? = some '.'
          ∧ (cs.drop 1 = [] ∨ (cs.drop 1).head? = some slash)) := by
        rintro ⟨h1, h2, h3⟩
        rcases cs with _ | ⟨d, ds⟩
        · simp at h2
        · simp at h2
          rcases h3 with h3 | h3
          · simp at h3
            exact hdd (by rw [h1, h2, h3])
          · rcases ds with _ | ⟨e, es⟩
            · simp at h3
            · simp at h3
              exact hcs (by simp [h3])
      have hname : (c :: cs) ≠ ['.'] := by
        intro e
        simp at e
        exact hdot e
      rw [if_neg h2, if_neg h3, takeWhile_not_slash_self _ hns, dropWhile_not_slash_self _ hns,
        cleanLoop_nil]
      simp [cleanPush, hname]

theorem takeWhile_not_slash_append (l rest : Str) :
    (l ++ slash :: rest).takeWhile (fun x => decide (x ≠ slash))
      = l.takeWhile (fun x => decide (x ≠ slash)) := by
  induction l with
  | nil => simp
  | cons c cs ih =>
    by_cases hc : c = slash
    · simp [hc]
    · rw [List.cons_append, List.takeWhile_cons, List.takeWhile_cons, ih]

theorem dropWhile_not_slash_append (l rest : Str) :
    (l ++ slash :: rest).dropWhile (fun x => decide (x ≠ slash))
      = l.dropWhile (fun x => decide (x ≠ slash)) ++ slash :: rest := by
  induction l with
  | nil => simp
  | cons c cs ih =>
    by_cases hc : c = slash
    · simp [hc]
    · rw [List.cons_append, List.dropWhile_cons, List.dropWhile_cons, ih]
      simp [hc]

/-- The loop of `Clean` on a path followed by a separator and a last element that is neither
empty nor `..`: the path is cleaned as it is alone, then the element is added. -/
theorem cleanLoop_append_element (rooted : Bool) (name : Str) (hel : isPathElement name)
    (hdd : name ≠ ['.', '.']) :
    ∀ (n : Nat) (p outRev : Str) (dotdot f1 f2 : Nat),
      p.length ≤ n → p.length + name.length + 1 < f1 → p.length < f2 →
      cleanLoop rooted f1 (p ++ slash :: name) outRev dotdot
        = cleanPush rooted name (cleanLoop rooted f2 p outRev dotdot) := by
  have hnamepos : 0 < name.length := List.length_pos.mpr hel.1
  intro n
  induction n with
  | zero =>
    intro p outRev dotdot f1 f2 hn h1 h2
    have hp : p = [] := List.length_eq_zero.mp (Nat.le_zero.mp hn)
    subst hp
    obtain ⟨k, rfl⟩ : ∃ k, f1 = k + 1 := ⟨f1 - 1, by omega⟩
    obtain ⟨k0, rfl⟩ : ∃ k0, k = k0 + 1 := ⟨k - 1, by simp at h1; omega⟩
    rw [List.nil_append, cleanLoop_cons, if_pos rfl, cleanLoop_element _ _ _ _ _ hel hdd,
      cleanLoop_nil]
  | succ n ih =>
    intro p outRev dotdot f1 f2 hn h1 h2
    rcases p with _ | ⟨c, cs⟩
    · exact ih [] outRev dotdot f1 f2 (by simp) h1 h2
    · obtain ⟨k1, rfl⟩ : ∃ k, f1 = k + 1 := ⟨f1 - 1, by omega⟩
      obtain ⟨k2, rfl⟩ : ∃ k, f2 = k + 1 := ⟨f2 - 1, by omega⟩
      simp only [List.length_cons] at hn h1 h2
      rw [List.cons_append, cleanLoop_cons, cleanLoop_cons]
      by_cases hc : c = slash
      · rw [if_pos hc, if_pos hc]
        exact ih cs outRev dotdot k1 k2 (by omega) (by omega) (by omega)
      · rw [if_neg hc, if_neg hc]
        have hhead : (cs ++ slash :: name = [] ∨ (cs ++ slash :: name).head? = some slash)
            ↔ (cs = [] ∨ cs.head? = some slash) := by
          rcases cs with _ | ⟨d, ds⟩ <;> simp
        by_cases h2c : c = '.' ∧ (cs = [] ∨ cs.head? = some slash)
        · rw [if_pos h2c, if_pos ⟨h2c.1, hhead.mpr h2c.2⟩]
          exact ih cs outRev dotdot k1 k2 (by omega) (by omega) (by omega)
        · have h2c' : ¬ (c = '.' ∧ (cs ++ slash :: name = []
              ∨ (cs ++ slash :: name).head? = some slash)) :=
            fun h => h2c ⟨h.1, hhead.mp h.2⟩
          rw [if_neg h2c, if_neg h2c']
          have hdot : ((cs ++ slash :: name).head? = some '.'
                ∧ ((cs ++ slash :: name).drop 1 = []
                    ∨ ((cs ++ slash :: name).drop 1).head? = some slash))
              ↔ (cs.head? = some '.'
                ∧ (cs.drop 1 = [] ∨ (cs.drop 1).head? = some slash)) := by
            rcases cs with _ | ⟨d, ds⟩
            · simp [slash]
            · rcases ds with _ | ⟨e, es⟩ <;> simp
          by_cases h3c : c = '.' ∧ cs.head? = some '.'
              ∧ (cs.drop 1 = [] ∨ (cs.drop 1).head? = some slash)
          · rw [if_pos h3c, if_pos ⟨h3c.1, hdot.mpr h3c.2⟩]
            have hcs : cs ≠ [] := by
              intro e
              rw [e] at h3c
              simp at h3c
            have hdrop : (cs ++ slash :: name).drop 1 = cs.drop 1 ++ slash :: name := by
              rcases cs with _ | ⟨d, ds⟩
              · exact absurd rfl hcs
              · rfl
            have hlen : (cs.drop 1).length ≤ n := by
              simp only [List.length_drop]; omega
            have hlen1 : (cs.drop 1).length + name.length + 1 < k1 := by
              simp only [List.length_drop]; omega
            have hlen2 : (cs.drop 1).length < k2 := by
              simp only [List.length_drop]; omega
            rw [hdrop]
            by_cases hw : outRev.length > dotdot
            · rw [if_pos hw, if_pos hw]
              rcases outRev with _ | ⟨last, more⟩
              · exact ih _ _ _ _ _ hlen hlen1 hlen2
              · exact ih _ _ _ _ _ hlen hlen1 hlen2
            · rw [if_neg hw, if_neg hw]
              by_cases hr : (!rooted) = true
              · rw [if_pos hr, if_pos hr]
                exact ih _ _ _ _ _ hlen hlen1 hlen2
              · rw [if_neg hr, if_neg hr]
                exact ih _ _ _ _ _ hlen hlen1 hlen2
          · have h3c' : ¬ (c = '.' ∧ (cs ++ slash :: name).head? = some '.'
                ∧ ((cs ++ slash :: name).drop 1 = []
                    ∨ ((cs ++ slash :: name).drop 1).head? = some slash)) :=
              fun h => h3c ⟨h.1, hdot.mp h.2⟩
            rw [if_neg h3c, if_neg h3c']
            -- real path element
            have htake : (c :: (cs ++ slash :: name)).takeWhile (fun x => decide (x ≠ slash))
                = (c :: cs).takeWhile (fun x => decide (x ≠ slash)) := by
              rw [← List.cons_append, takeWhile_not_slash_append]
            have hdropw : (c :: (cs ++ slash :: name)).dropWhile (fun x => decide (x ≠ slash))
                = (c :: cs).dropWhile (fun x => decide (x ≠ slash)) ++ slash :: name := by
              rw [← List.cons_append, dropWhile_not_slash_append]
            have hdl : ((c :: cs).dropWhile (fun x => decide (x ≠ slash))).length ≤ cs.length := by
              simp only [List.dropWhile_cons, hc, ne_eq, not_false_eq_true, decide_True, if_true]
              exact (List.dropWhile_sublist _).length_le
            rw [htake, hdropw]
            exact ih _ _ _ _ _ (by omega) (by omega) (by omega)

theorem cleanBacktrack_rooted (popped : Char) (t : Str) :
    ∃ t2, cleanBacktrack 1 popped (t ++ [slash]) = t2 ++ [slash] := by
  induction t generalizing popped with
  | nil => exact ⟨[], by simp [cleanBacktrack]⟩
  | cons c cs ih =>
    rw [List.cons_append, cleanBacktrack]
    split
    · exact ih c
    · exact ⟨c :: cs, rfl⟩

/-- The buffer of `Clean` on a rooted path always starts with the separator. -/
theorem cleanLoop_rooted (fuel : Nat) :
    ∀ (p t : Str), ∃ t2, cleanLoop true fuel p (t ++ [slash]) 1 = t2 ++ [slash] := by
  induction fuel with
  | zero => intro p t; exact ⟨t, rfl⟩
  | succ fuel ih =>
    intro p t
    rcases p with _ | ⟨c, cs⟩
    · exact ⟨t, rfl⟩
    · rw [cleanLoop_cons]
      split
      · exact ih _ _
      · split
        · exact ih _ _
        · split
          · split
            · rcases t with _ | ⟨last, more⟩
              · rename_i hw
                simp at hw
              · obtain ⟨t2, ht2⟩ := cleanBacktrack_rooted last more
                simp only [List.cons_append]
                rw [ht2]
                exact ih _ _
            · split
              · rename_i hr
                simp at hr
              · exact ih _ _
          · have : ∀ e : Str, e.reverse
                ++ (if (true = true ∧ (t ++ [slash]).length ≠ 1)
                      ∨ ((!true) = true ∧ (t ++ [slash]).length ≠ 0)
                    then slash :: (t ++ [slash]) else t ++ [slash])
                = (e.reverse ++ (if (true = true ∧ (t ++ [slash]).length ≠ 1)
                      ∨ ((!true) = true ∧ (t ++ [slash]).length ≠ 0)
                    then slash :: t else t)) ++ [slash] := by
              intro e
              split <;> simp
            rw [this]
            exact ih _ _

theorem filepathClean_rooted (cs : Str) :
    filepathClean (slash :: cs)
      = if (cleanLoop true ((slash :: cs).length + 1) cs [slash] 1).length = 0 then ['.']
        else (cleanLoop true ((slash :: cs).length + 1) cs [slash] 1).reverse := by
  simp [filepathClean]

theorem filepathClean_relative (c : Char) (cs : Str) (hc : c ≠ slash) :
    filepathClean (c :: cs)
      = if (cleanLoop false ((c :: cs).length + 1) (c :: cs) [] 0).length = 0 then ['.']
        else (cleanLoop false ((c :: cs).length + 1) (c :: cs) [] 0).reverse := by
  simp [filepathClean, hc]

theorem filepathJoin_cons (c : Char) (cs x : Str) :
    filepathJoin [c :: cs, x] = filepathClean (c :: (cs ++ slash :: x)) := by
  simp [filepathJoin, stringsJoin]

theorem filepathJoin_nil (c : Char) (cs : Str) :
    filepathJoin [[], c :: cs] = filepathClean (c :: cs) := by
  simp [filepathJoin, stringsJoin]

/-- The buffer that `Clean` fills for a path, and what `Join` makes of the path followed by
one or two more elements, none of them `..`. -/
theorem filepathJoin_elements (base : Str) :
    ∃ (rooted : Bool) (o : Str),
      (rooted = true → ∃ t, o = t ++ [slash])
      ∧ filepathClean base = (if o.length = 0 then ['.'] else o.reverse)
      ∧ (∀ a : Str, isPathElement a → a ≠ ['.', '.'] →
          filepathJoin [base, a]
            = if (cleanPush rooted a o).length = 0 then ['.']
              else (cleanPush rooted a o).reverse)
      ∧ (∀ a b : Str, isPathElement a → a ≠ ['.', '.'] → isPathElement b → b ≠ ['.', '.'] →
          filepathJoin [base, a ++ slash :: b]
            = if (cleanPush rooted b (cleanPush rooted a o)).length = 0 then ['.']
              else (cleanPush rooted b (cleanPush rooted a o)).reverse) := by
  rcases base with _ | ⟨c, cs⟩
  · refine ⟨false, [], by simp, by simp [filepathClean], ?_, ?_⟩
    · intro a ha hdd
      rcases a with _ | ⟨d, ds⟩
      · exact absurd rfl ha.1
      · have hd : d ≠ slash := fun e => ha.2 (by simp [e])
        have h := cleanLoop_element false (d :: ds).length (d :: ds) [] 0 ha hdd
        rw [filepathJoin_nil, filepathClean_relative d ds hd, h]
    · intro a b ha hda hb hdb
      rcases a with _ | ⟨d, ds⟩
      · exact absurd rfl ha.1
      · have hd : d ≠ slash := fun e => ha.2 (by simp [e])
        have h1 := cleanLoop_append_element false b hb hdb (d :: ds).length (d :: ds) [] 0
          ((d :: (ds ++ slash :: b)).length + 1) ((d :: ds).length + 1) (le_refl _)
          (by simp only [List.length_cons, List.length_append]; omega)
          (by simp only [List.length_cons]; omega)
        have h2 := cleanLoop_element false (d :: ds).length (d :: ds) [] 0 ha hda
        rw [h2] at h1
        rw [List.cons_append, filepathJoin_nil, filepathClean_relative d _ hd]
        rw [List.cons_append] at h1
        rw [h1]
  · by_cases hc : c = slash
    · subst hc
      obtain ⟨t, ht⟩ := cleanLoop_rooted ((slash :: cs).length + 1) cs []
      refine ⟨true, cleanLoop true ((slash :: cs).length + 1) cs [slash] 1,
        fun _ => ⟨t, by simpa using ht⟩, filepathClean_rooted cs, ?_, ?_⟩
      · intro a ha hdd
        have h1 := cleanLoop_append_element true a ha hdd cs.length cs [slash] 1
          ((slash :: (cs ++ slash :: a)).length + 1) ((slash :: cs).length + 1) (le_refl _)
          (by simp only [List.length_cons, List.length_append]; omega)
          (by simp only [List.length_cons]; omega)
        rw [filepathJoin_cons, filepathClean_rooted, h1]
      · intro a b ha hda hb hdb
        have h1 := cleanLoop_append_element true b hb hdb (cs ++ slash :: a).length
          (cs ++ slash :: a) [slash] 1
          ((slash :: (cs ++ slash :: (a ++ slash :: b))).length + 1)
          ((cs ++ slash :: a).length + 1) (le_refl _)
          (by simp only [List.length_cons, List.length_append]; omega)
          (by omega)
        have h2 := cleanLoop_append_element true a ha hda cs.length cs [slash] 1
          ((cs ++ slash :: a).length + 1) ((slash :: cs).length + 1) (le_refl _)
          (by simp only [List.length_cons, List.length_append]; omega)
          (by simp only [List.length_cons]; omega)
        rw [h2] at h1
        rw [List.append_assoc, List.cons_append] at h1
        rw [filepathJoin_cons, filepathClean_rooted, h1]
    · refine ⟨false, cleanLoop false ((c :: cs).length + 1) (c :: cs) [] 0, by simp,
        filepathClean_relative c cs hc, ?_, ?_⟩
      · intro a ha hdd
        have h1 := cleanLoop_append_element false a ha hdd (c :: cs).length (c :: cs) [] 0
          ((c :: (cs ++ slash :: a)).length + 1) ((c :: cs).length + 1) (le_refl _)
          (by simp only [List.length_cons, List.length_append]; omega)
          (by simp only [List.length_cons]; omega)
        rw [List.cons_append] at h1
        rw [filepathJoin_cons, filepathClean_relative c _ hc, h1]
      · intro a b ha hda hb hdb
        have h1 := cleanLoop_append_element false b hb hdb ((c :: cs) ++ slash :: a).length
          ((c :: cs) ++ slash :: a) [] 0
          ((c :: (cs ++ slash :: (a ++ slash :: b))).length + 1)
          (((c :: cs) ++ slash :: a).length + 1) (le_refl _)
          (by simp only [List.length_cons, List.length_append]; omega)
          (by omega)
        have h2 := cleanLoop_append_element false a ha hda (c :: cs).length (c :: cs) [] 0
          (((c :: cs) ++ slash :: a).length + 1) ((c :: cs).length + 1) (le_refl _)
          (by simp only [List.length_cons, List.length_append]; omega)
          (by simp only [List.length_cons]; omega)
        rw [h2] at h1
        rw [List.append_assoc, List.cons_append, List.cons_append] at h1
        rw [filepathJoin_cons, filepathClean_relative c _ hc, h1]

theorem splitOn_no_sep (sep : Char) (p : Str) : ∀ x ∈ List.splitOn sep p, sep ∉ x := by
  induction p with
  | nil => simp [List.splitOn, List.splitOnP_nil]
  | cons c cs ih =>
    intro x hx
    simp only [List.splitOn] at ih hx
    rw [List.splitOnP_cons] at hx
    by_cases hc : c = sep
    · simp only [hc, beq_self_eq_true, if_true, List.mem_cons] at hx
      rcases hx with rfl | hx
      · simp
      · exact ih x hx
    · have hb : (c == sep) = false := by simpa using hc
      simp only [hb, Bool.false_eq_true, if_false] at hx
      cases hsp : List.splitOnP (fun x => x == sep) cs with
      | nil => rw [hsp] at hx; simp at hx
      | cons a rest =>
        rw [hsp] at hx ih
        simp only [List.modifyHead_cons, List.mem_cons] at hx
        rcases hx with rfl | hx
        · have ha := ih a (by simp)
          intro hmem
          rcases List.mem_cons.mp hmem with h | h
          · exact hc h.symm
          · exact ha h
        · exact ih x (by simp [hx])

/-- The params of `parsePath` are path elements: not empty and without a separator. -/
theorem pathSegments_isPathElement (p x : Str) (hx : x ∈ pathSegments p) :
    isPathElement x := by
  simp only [pathSegments, List.mem_filter, decide_eq_true_eq] at hx
  exact ⟨hx.2, splitOn_no_sep slash p x hx.1⟩

theorem pathSegments_of_dir (p a : Str)
    (h : parsePath p = (PathType.PATH_DIR, some [a])) : pathSegments p = [a] := by
  rw [parsePath_eq_classify] at h
  rcases hs : pathSegments p with _ | ⟨x, _ | ⟨y, _ | ⟨z, rest⟩⟩⟩ <;> rw [hs] at h <;>
    simp [classifySegments] at h
  rw [h]

theorem pathSegments_of_payment (p a b : Str)
    (h : parsePath p = (PathType.PATH_PAYMENT, some [a, b])) : pathSegments p = [a, b] := by
  rw [parsePath_eq_classify] at h
  rcases hs : pathSegments p with _ | ⟨x, _ | ⟨y, _ | ⟨z, rest⟩⟩⟩ <;> rw [hs] at h <;>
    simp [classifySegments] at h
  rw [h.1, h.2]

theorem atOrBelow_of_buffer (r : Bool) (o : Str) (hinv : r = true → ∃ t, o = t ++ [slash])
    (names : List Str) (hne : names ≠ []) (hord : ∀ n ∈ names, isOrdinaryName n) :
    atOrBelow (if o.length = 0 then ['.'] else o.reverse)
      ((if (r = true ∧ o.length ≠ 1) ∨ ((!r) = true ∧ o.length ≠ 0) then slash :: o
        else o).reverse ++ stringsJoin names [slash]) := by
  refine Or.inr ⟨names, hne, hord, ?_⟩
  cases r with
  | true =>
    obtain ⟨t, rfl⟩ := hinv rfl
    rcases t with _ | ⟨c, cs⟩
    · right; left
      simp
    · left
      simp
  | false =>
    rcases o with _ | ⟨c, cs⟩
    · right; right
      simp
    · left
      simp

theorem atOrBelow_cleanPush (r : Bool) (o : Str) (hinv : r = true → ∃ t, o = t ++ [slash])
    (a : Str) (ha : isPathElement a) (hdd : a ≠ ['.', '.']) :
    atOrBelow (if o.length = 0 then ['.'] else o.reverse)
      (if (cleanPush r a o).length = 0 then ['.'] else (cleanPush r a o).reverse) := by
  by_cases hdot : a = ['.']
  · left
    simp [cleanPush, hdot]
  · have hord : isOrdinaryName a := ⟨ha.1, ha.2, hdot, hdd⟩
    have h := atOrBelow_of_buffer r o hinv [a] (by simp) (by simpa using hord)
    have hlen : (cleanPush r a o).length ≠ 0 := by
      have : 0 < a.length := List.length_pos.mpr ha.1
      simp only [cleanPush, hdot, if_false, List.length_append, List.length_reverse]
      omega
    rw [if_neg hlen]
    simp only [cleanPush, hdot, if_false, List.reverse_append, List.reverse_reverse]
    simpa [stringsJoin] using h

theorem atOrBelow_cleanPush_two (r : Bool) (o : Str)
    (hinv : r = true → ∃ t, o = t ++ [slash])
    (a b : Str) (ha : isPathElement a) (hda : a ≠ ['.', '.'])
    (hb : isPathElement b) (hdb : b ≠ ['.', '.']) :
    atOrBelow (if o.length = 0 then ['.'] else o.reverse)
      (if (cleanPush r b (cleanPush r a o)).length = 0 then ['.']
       else (cleanPush r b (cleanPush r a o)).reverse) := by
  by_cases hadot : a = ['.']
  · have : cleanPush r a o = o := by simp [cleanPush, hadot]
    rw [this]
    exact atOrBelow_cleanPush r o hinv b hb hdb
  · by_cases hbdot : b = ['.']
    · have : cleanPush r b (cleanPush r a o) = cleanPush r a o := by simp [cleanPush, hbdot]
      rw [this]
      exact atOrBelow_cleanPush r o hinv a ha hda
    · have horda : isOrdinaryName a := ⟨ha.1, ha.2, hadot, hda⟩
      have hordb : isOrdinaryName b := ⟨hb.1, hb.2, hbdot, hdb⟩
      have h := atOrBelow_of_buffer r o hinv [a, b] (by simp)
        (by
          intro n hn
          simp only [List.mem_cons, List.mem_singleton, List.not_mem_nil, or_false] at hn
          rcases hn with rfl | rfl
          · exact horda
          · exact hordb)
      have hapos : 0 < a.length := List.length_pos.mpr ha.1
      have hbpos : 0 < b.length := List.length_pos.mpr hb.1
      have ho : r = true → 1 ≤ o.length := by
        intro hr
        obtain ⟨t, rfl⟩ := hinv hr
        simp
      have hlen1 : (cleanPush r a o).length ≠ 0 := by
        simp only [cleanPush, hadot, if_false, List.length_append, List.length_reverse]
        omega
      have hlen1' : r = true → (cleanPush r a o).length ≠ 1 := by
        intro hr
        have := ho hr
        simp only [cleanPush, hadot, if_false, List.length_append, List.length_reverse]
        split
        · simp only [List.length_cons]; omega
        · omega
      have hcond : (r = true ∧ (cleanPush r a o).length ≠ 1)
          ∨ ((!r) = true ∧ (cleanPush r a o).length ≠ 0) := by
        cases r with
        | true => exact Or.inl ⟨rfl, hlen1' rfl⟩
        | false => exact Or.inr ⟨rfl, hlen1⟩
      have hpush : cleanPush r b (cleanPush r a o)
          = b.reverse ++ slash :: cleanPush r a o := by
        rw [cleanPush, if_neg hbdot, if_pos hcond]
      have hlen2 : (cleanPush r b (cleanPush r a o)).length ≠ 0 := by
        rw [hpush]
        simp
      rw [if_neg hlen2, hpush]
      simp only [cleanPush, hadot, if_false, List.reverse_append, List.reverse_reverse,
        List.reverse_cons]
      simpa [stringsJoin] using h

/-- Claim C19, as amended: when no param of the request is `..`, the path that the
dispatcher has listed (Day shape, `BaseDir` joined with the param) or read (Record shape,
`BaseDir` joined with the two params) is the clean form of `BaseDir` itself or that form
followed by one or two ordinary names, a location under `BaseDir`. -/
theorem request_path_contained (base urlPath : Str) :
    (∀ a : Str, parsePath urlPath = (PathType.PATH_DIR, some [a]) → a ≠ ['.', '.'] →
      atOrBelow (filepathClean base) (filepathJoin [base, a]))
    ∧ (∀ a b : Str, parsePath urlPath = (PathType.PATH_PAYMENT, some [a, b]) →
        a ≠ ['.', '.'] → b ≠ ['.', '.'] →
        atOrBelow (filepathClean base) (filepathJoin [base, stringsJoin [a, b] [slash]])) := by
  obtain ⟨r, o, hinv, hclean, hone, htwo⟩ := filepathJoin_elements base
  constructor
  · intro a hp hdd
    have hseg := pathSegments_of_dir urlPath a hp
    have ha : isPathElement a := pathSegments_isPathElement urlPath a (by rw [hseg]; simp)
    rw [hclean, hone a ha hdd]
    exact atOrBelow_cleanPush r o hinv a ha hdd
  · intro a b hp hda hdb
    have hseg := pathSegments_of_payment urlPath a b hp
    have ha : isPathElement a := pathSegments_isPathElement urlPath a (by rw [hseg]; simp)
    have hb : isPathElement b := pathSegments_isPathElement urlPath b (by rw [hseg]; simp)
    have hj : stringsJoin [a, b] [slash] = a ++ slash :: b := by simp [stringsJoin]
    rw [hclean, hj, htwo a b ha hda hb hdb]
    exact atOrBelow_cleanPush_two r o hinv a b ha hda hb hdb

set_option maxRecDepth 100000 in
theorem request_path_contained_witness :
    atOrBelow (filepathClean "/srv/data".toList)
        (filepathJoin ["/srv/data".toList, "20220717".toList])
    ∧ atOrBelow (filepathClean "/srv/data".toList)
        (filepathJoin ["/srv/data".toList,
          stringsJoin ["20220717".toList, "090000.payments".toList] [slash]])
    ∧ filepathJoin ["/srv/data".toList, "20220717".toList] = "/srv/data/20220717".toList
    ∧ filepathJoin ["/srv/data".toList,
          stringsJoin ["20220717".toList, "090000.payments".toList] [slash]]
        = "/srv/data/20220717/090000.payments".toList :=
  ⟨(request_path_contained "/srv/data".toList "/20220717/".toList).1 "20220717".toList
      (by decide) (by decide),
   (request_path_contained "/srv/data".toList "/20220717/090000.payments".toList).2
      "20220717".toList "090000.payments".toList (by decide) (by decide) (by decide),
   by decide, by decide⟩

set_option maxRecDepth 100000 in
/-- Claim C19 fails as stated: the request `/..` is Day-shaped with the param `..`, and the
path listed is `/srv`, the parent of the root `/srv/data`, whose entries are served; the
request `/../secret.csv` is Record-shaped and the file read is `/srv/secret.csv`, outside
of the root, whose records are served. -/
theorem request_path_escapes :
    parsePath "/..".toList = (PathType.PATH_DIR, some ["..".toList])
    ∧ filepathJoin [handlerService.BaseDir, "..".toList] = "/srv".toList
    ∧ ¬ atOrBelow (filepathClean handlerService.BaseDir) "/srv".toList
    ∧ (ServeHTTP handlerFileSystem sampleEncoder sampleHandler ResponseWriter.fresh
        "/..".toList).outcome
        = Exec.returns (serveJSON ResponseWriter.fresh
            (sampleEncoder.MarshalStrings (some ["235959.payments".toList])).1)
    ∧ parsePath "/../secret.csv".toList
        = (PathType.PATH_PAYMENT, some ["..".toList, "secret.csv".toList])
    ∧ filepathJoin [handlerService.BaseDir, stringsJoin ["..".toList, "secret.csv".toList] [slash]]
        = "/srv/secret.csv".toList
    ∧ ¬ atOrBelow (filepathClean handlerService.BaseDir) "/srv/secret.csv".toList
    ∧ (ServeHTTP handlerFileSystem sampleEncoder sampleHandler ResponseWriter.fresh
        "/../secret.csv".toList).outcome
        = (ServeHTTP handlerFileSystem sampleEncoder sampleHandler ResponseWriter.fresh
            "/20220717/090000.payments".toList).outcome := by
  have hclean : filepathClean handlerService.BaseDir = "/srv/data".toList := by decide
  refine ⟨by decide, by decide, ?_, by decide, by decide, by decide, ?_, by decide⟩
  · rw [hclean]
    rintro (h | ⟨names, _, _, h | ⟨h, _⟩ | ⟨h, _⟩⟩)
    · exact absurd h (by decide)
    · have := congrArg List.length h
      simp at this
    · exact absurd h (by decide)
    · exact absurd h (by decide)
  · rw [hclean]
    rintro (h | ⟨names, hne, hord, h | ⟨h, _⟩ | ⟨h, _⟩⟩)
    · exact absurd h (by decide)
    · have h9 : ("/srv/secret.csv".toList).take 9 = "/srv/data".toList := by
        rw [h]
        simp
      exact absurd h9 (by decide)
    · exact absurd h (by decide)
    · exact absurd h (by decide)

/-! ### The normal form of the request path -/

/-- A path element is its own and only non-empty piece. -/
theorem pathSegments_of_element (a : Str) (ha : isPathElement a) : pathSegments a = [a] := by
  have hs : List.splitOn slash a = [a] := by
    unfold List.splitOn
    apply List.splitOnP_eq_single
    intro x hx hxs
    have : x = slash := by simpa using hxs
    exact ha.2 (this ▸ hx)
  simp [pathSegments, hs, ha.1]

/-- Two path elements joined by one separator split into the two again. -/
theorem pathSegments_of_two_elements (a b : Str) (ha : isPathElement a) (hb : isPathElement b) :
    pathSegments (a ++ slash :: b) = [a, b] := by
  rw [pathSegments_append_slash, pathSegments_of_element a ha, pathSegments_of_element b hb]
  rfl

/-- What `parsePath` returns on a directory or payment route: the list of the non-empty
pieces, of length one or two. -/
theorem parsePath_params (p : Str) (shape : PathType) (params : Slice Str)
    (h : parsePath p = (shape, params))
    (hs : shape = PathType.PATH_DIR ∨ shape = PathType.PATH_PAYMENT) :
    params = some (pathSegments p)
    ∧ ((shape = PathType.PATH_DIR ∧ ∃ a, pathSegments p = [a])
      ∨ (shape = PathType.PATH_PAYMENT ∧ ∃ a b, pathSegments p = [a, b])) := by
  rw [parsePath_eq_classify] at h
  rcases hseg : pathSegments p with _ | ⟨x, _ | ⟨y, _ | ⟨z, rest⟩⟩⟩ <;> rw [hseg] at h <;>
    simp only [classifySegments, Prod.mk.injEq] at h <;> obtain ⟨h1, h2⟩ := h <;>
    subst h1 <;> subst h2
  · rcases hs with hs | hs <;> cases hs
  · exact ⟨rfl, Or.inl ⟨rfl, x, rfl⟩⟩
  · exact ⟨rfl, Or.inr ⟨rfl, x, y, rfl⟩⟩
  · rcases hs with hs | hs <;> cases hs

/-- Claim C21: on a directory or payment route the params of `parsePath` are one or two
pieces, each non-empty and without a separator, and `parsePath` on the params joined by
the separator returns the same route and the same params; on a payment route the one call
of `ServeHTTP` is `GetPayments` on a string of the form first piece, separator, second
piece, with both pieces non-empty and without a separator, and on a directory route it is
`ListPayments` on the one piece. -/
theorem parsePath_round_trip (fs : FileSystem) (json : JsonEncoder) (h : Handler)
    (w : ResponseWriter) (p : Str) (shape : PathType) (params : Slice Str)
    (hp : parsePath p = (shape, params))
    (hs : shape = PathType.PATH_DIR ∨ shape = PathType.PATH_PAYMENT) :
    (∃ elems : List Str, params = some elems
      ∧ (∀ x ∈ elems, x ≠ [] ∧ slash ∉ x)
      ∧ parsePath (stringsJoin elems [slash]) = (shape, params))
    ∧ (shape = PathType.PATH_DIR → ∃ a : Str, a ≠ [] ∧ slash ∉ a
        ∧ params = some [a]
        ∧ (ServeHTTP fs json h w p).calls = [ServiceCall.ListPayments a])
    ∧ (shape = PathType.PATH_PAYMENT → ∃ a b : Str, a ≠ [] ∧ slash ∉ a ∧ b ≠ [] ∧ slash ∉ b
        ∧ params = some [a, b]
        ∧ (ServeHTTP fs json h w p).calls = [ServiceCall.GetPayments (a ++ slash :: b)]) := by
  obtain ⟨hpar, hcase⟩ := parsePath_params p shape params hp hs
  have hel : ∀ x ∈ pathSegments p, isPathElement x := fun x hx =>
    pathSegments_isPathElement p x hx
  rcases hcase with ⟨hshape, a, hseg⟩ | ⟨hshape, a, b, hseg⟩
  · subst hshape
    rw [hseg] at hpar hel
    subst hpar
    have ha : isPathElement a := hel a (by simp)
    refine ⟨⟨[a], rfl, fun x hx => hel x hx, ?_⟩, ?_, ?_⟩
    · rw [parsePath_eq_classify]
      show classifySegments (pathSegments a) = _
      rw [pathSegments_of_element a ha]
      rfl
    · intro _
      refine ⟨a, ha.1, ha.2, rfl, ?_⟩
      simp only [ServeHTTP, hp]
      rfl
    · intro hc
      cases hc
  · subst hshape
    rw [hseg] at hpar hel
    subst hpar
    have ha : isPathElement a := hel a (by simp)
    have hb : isPathElement b := hel b (by simp)
    have hj : stringsJoin [a, b] [slash] = a ++ slash :: b := by
      simp [stringsJoin]
    refine ⟨⟨[a, b], rfl, fun x hx => hel x hx, ?_⟩, ?_, ?_⟩
    · rw [parsePath_eq_classify, hj, pathSegments_of_two_elements a b ha hb]
      rfl
    · intro hc
      cases hc
    · intro _
      refine ⟨a, b, ha.1, ha.2, hb.1, hb.2, rfl, ?_⟩
      simp only [ServeHTTP, hp]
      rw [← hj]
      rfl

set_option maxRecDepth 100000 in
/-- The round trip on the request `//20220717//090000.payments/`. -/
theorem parsePath_round_trip_witness :
    parsePath "//20220717//090000.payments/".toList
        = (PathType.PATH_PAYMENT, some ["20220717".toList, "090000.payments".toList])
    ∧ (∃ elems : List Str,
        (some ["20220717".toList, "090000.payments".toList] : Slice Str) = some elems
        ∧ (∀ x ∈ elems, x ≠ [] ∧ slash ∉ x)
        ∧ parsePath (stringsJoin elems [slash])
          = (PathType.PATH_PAYMENT, some ["20220717".toList, "090000.payments".toList]))
    ∧ (ServeHTTP handlerFileSystem sampleEncoder sampleHandler ResponseWriter.fresh
        "//20220717//090000.payments/".toList).calls
        = [ServiceCall.GetPayments "20220717/090000.payments".toList] :=
  have hp : parsePath "//20220717//090000.payments/".toList
      = (PathType.PATH_PAYMENT, some ["20220717".toList, "090000.payments".toList]) := by
    decide
  ⟨hp,
   (parsePath_round_trip handlerFileSystem sampleEncoder sampleHandler ResponseWriter.fresh
      "//20220717//090000.payments/".toList PathType.PATH_PAYMENT
      (some ["20220717".toList, "090000.payments".toList]) hp (Or.inr rfl)).1,
   by decide⟩

end ProductServices
